import Mathlib

/-!
Verification of the MDL `componentHandler` upgrade registry
(`src/samples/sunset clause collective agreement 30766.js`, lines 88-418).

The registry is shallowly embedded: DOM nodes are identified by natural
numbers, the document is a store `Nat → Elem` plus a document-order list,
component factories and upgrade callbacks are identified by natural numbers
(the registry never inspects them, it only stores and invokes them), and the
three lifecycle notifications are recorded in an event log.  Event listeners
that may cancel the cancellable `mdl-componentupgrading` notification are
modelled by a per-element predicate `preventUpgrade`.  Fallible operations
return the state paired with `Option String`: `some msg` models a thrown
`Error(msg)` and the state component is the state at the moment of the throw.
-/

namespace MDL

/-! ### JavaScript string and array primitives used by the registry -/

/-- JS `String.prototype.split(",")` at the character-list level:
`"a,,b"` splits into `["a","","b"]` and `""` splits into `[""]`
(the result is never empty). -/
def splitCommaChars : List Char → List (List Char)
  | [] => [[]]
  | c :: cs =>
    match splitCommaChars cs with
    | [] => [[]]
    | g :: gs => if c = ',' then [] :: g :: gs else (c :: g) :: gs

/-- JS `Array.prototype.join(",")` at the character-list level. -/
def joinCommaChars : List (List Char) → List Char
  | [] => []
  | [g] => g
  | g :: g' :: gs => g ++ ',' :: joinCommaChars (g' :: gs)

/-- JS `String.prototype.split(",")`. -/
def jsSplitComma (s : String) : List String :=
  (splitCommaChars s.data).map (fun g => ⟨g⟩)

/-- JS `Array.prototype.join(",")` on an array of strings. -/
def jsJoinComma (l : List String) : String :=
  ⟨joinCommaChars (l.map String.data)⟩

/-- JS `Array.prototype.indexOf` on an array of strings, where the needle may
be `undefined` (modelled as `none`); `undefined === s` is false for every
string `s`, so an `undefined` needle always yields `-1`. -/
def jsIndexOf (l : List String) : Option String → Int
  | none => -1
  | some s =>
    match l.findIdx? (fun x => x = s) with
    | some i => (i : Int)
    | none => -1

/-- JS `Array.prototype.splice(start, 1)`: a negative `start` counts from the
end of the array (clamped at `0`), a `start` at or past the end removes
nothing. -/
def spliceOne (l : List String) (start : Int) : List String :=
  let s : Nat := if start < 0 then l.length - start.natAbs else start.toNat
  l.eraseIdx s

/-! ### Data model -/

/-- Classification of the values a caller can hand to the registry where the
source performs `instanceof` checks: an `HTMLElement`, an `Element` that is
not an `HTMLElement` (e.g. an SVG element), a `Node` that is not an `Element`
(e.g. a text node), or a value that is not a DOM node at all. -/
inductive NodeKind where
  | html
  | element
  | otherNode
  | nonNode
deriving DecidableEq, Repr

/-- JS `x instanceof Element`. -/
def NodeKind.isElement : NodeKind → Prop
  | .html => True
  | .element => True
  | _ => False

instance : DecidablePred NodeKind.isElement := by
  intro k; cases k <;> simp [NodeKind.isElement] <;> infer_instance

/-- JS `x instanceof Node`. -/
def NodeKind.isNode : NodeKind → Prop
  | .nonNode => False
  | _ => True

instance : DecidablePred NodeKind.isNode := by
  intro k; cases k <;> simp [NodeKind.isNode] <;> infer_instance

/-- A DOM node: its `instanceof` classification, its CSS class list, the
`data-upgraded` attribute (`none` models an absent attribute), its child
nodes (in document order) and the expando properties the registry attaches
(`element[className] = instance`, an instance being identified by its id). -/
structure Elem where
  kind : NodeKind
  classList : List String
  dataUpgraded : Option String
  children : List Nat
  props : List (String × Nat)
deriving DecidableEq, Repr

/-- The name of the reserved internal back-reference field
(`componentConfigProperty_` in the source). -/
def componentConfigProperty_ : String := "mdlComponentConfigInternal_"

/-- A registered component descriptor, as built by `registerInternal`
(`newConfig` in the source).  Note that the record has a `className` field and
no `classAsString` field; `classAsString` exists only on the public
registration input. -/
structure ComponentConfig where
  classConstructor : Nat
  className : String
  cssClass : String
  widget : Bool
  callbacks : List Nat
deriving DecidableEq, Repr

/-- The public registration input (`componentHandler.ComponentConfigPublic`).
`protoHasConfigProperty` models whether
`config.constructor.prototype.hasOwnProperty(componentConfigProperty_)`
holds for the supplied factory. -/
structure ComponentConfigPublic where
  constructor : Nat
  protoHasConfigProperty : Bool
  classAsString : String
  cssClass : String
  widget : Option Bool
deriving DecidableEq, Repr

/-- A live component instance.  `id` is a fresh identity (JS instances are
distinguished by reference), `element_` is the owning element and
`configField` is the reserved back-reference field
`instance[componentConfigProperty_]`, absent (`none`) until assigned. -/
structure Component where
  id : Nat
  element_ : Nat
  configField : Option ComponentConfig
deriving DecidableEq, Repr

/-- A dispatched DOM event, as recorded in the event log. -/
structure Ev where
  eventType : String
  bubbles : Bool
  cancelable : Bool
  target : Nat
deriving DecidableEq, Repr

/-- The whole registry-and-document state.  `registeredComponents_` and
`createdComponents_` are the two module-level arrays of the source;
`dom`/`docOrder` model the document (node structure is static: upgrades touch
only `dataUpgraded` and `props`); `preventUpgrade` models which elements have
a listener that cancels the cancellable upgrade notification; `events` and
`callbackLog` record dispatched events and invoked upgrade callbacks;
`nextComponentId` supplies fresh instance identities. -/
structure Registry where
  registeredComponents_ : List ComponentConfig
  createdComponents_ : List Component
  dom : Nat → Elem
  docOrder : List Nat
  preventUpgrade : Nat → Bool
  events : List Ev
  callbackLog : List (Nat × Nat)
  nextComponentId : Nat

/-! ### Private helpers of the source -/

/-- `findRegisteredClass_(name, optReplace)`: scans `registeredComponents_`
for the first descriptor whose `className` equals `name`; when `optReplace`
is supplied the match is replaced in place.  Returns the found (possibly
replacement) descriptor — `none` models the JS return value `false` — and the
(possibly updated) collection. -/
def findRegisteredClass_ (name : String) (optReplace : Option ComponentConfig) :
    List ComponentConfig → Option ComponentConfig × List ComponentConfig
  | [] => (none, [])
  | c :: cs =>
    if c.className = name then
      match optReplace with
      | some r => (some r, r :: cs)
      | none => (some c, c :: cs)
    else
      let p := findRegisteredClass_ name optReplace cs
      (p.1, c :: p.2)

/-- `getUpgradedListOfElement_`: the element's `data-upgraded` attribute split
on commas, with `[""]` as the default for an absent attribute (conforming to
the `,name,name...` storage style). -/
def getUpgradedListOfElement_ (element : Elem) : List String :=
  match element.dataUpgraded with
  | none => [""]
  | some dataUpgraded => jsSplitComma dataUpgraded

/-- `isElementUpgraded_`: whether `jsClass` occurs in the element's upgraded
list (`indexOf(jsClass) !== -1`). -/
def isElementUpgraded_ (element : Elem) (jsClass : String) : Prop :=
  jsClass ∈ getUpgradedListOfElement_ element

instance (element : Elem) (jsClass : String) :
    Decidable (isElementUpgraded_ element jsClass) := by
  unfold isElementUpgraded_; infer_instance

/-- `createEvent_` followed by `element.dispatchEvent`: the event is recorded
in the log, and the second component tells whether `defaultPrevented` is set
afterwards (a listener can only cancel a cancelable event, and the modelled
listeners cancel exactly the events on elements with `preventUpgrade`). -/
def dispatchEvent (st : Registry) (ev : Ev) : Registry × Bool :=
  ({ st with events := st.events ++ [ev] },
   ev.cancelable && st.preventUpgrade ev.target)

/-- `element.setAttribute('data-upgraded', v)`. -/
def setDataUpgraded (st : Registry) (element : Nat) (v : String) : Registry :=
  { st with dom := fun j => if j = element then
      { st.dom j with dataUpgraded := some v } else st.dom j }

/-- JS property assignment on an expando map: overwrite an existing key or
append a new binding. -/
def setPropList (k : String) (v : Nat) : List (String × Nat) → List (String × Nat)
  | [] => [(k, v)]
  | (k', v') :: rest =>
    if k' = k then (k, v) :: rest else (k', v') :: setPropList k v rest

/-- `element[className] = instance`. -/
def setElemProp (st : Registry) (element : Nat) (k : String) (v : Nat) : Registry :=
  { st with dom := fun j => if j = element then
      { st.dom j with props := setPropList k v (st.dom j).props } else st.dom j }

/-- `document.querySelectorAll('.' + cssClass)`: every element in the
document, in document order, whose class list contains `cssClass` (a static
snapshot taken at call time). -/
def querySelectorAllByClass (st : Registry) (cssClass : String) : List Nat :=
  st.docOrder.filter (fun i => decide ((st.dom i).kind.isElement) &&
    decide (cssClass ∈ (st.dom i).classList))

/-! ### Single-element upgrade -/

/-- One successful iteration of the upgrade loop of `upgradeElementInternal`,
for a truthy `registeredClass`, with `upgradedList` already extended by the
class name: write the extended list back to the attribute, create the
instance via the factory, assign the reserved back-reference field, record
the instance as created, invoke the subscribed callbacks in subscription
order, expose the instance on the element when the `widget` flag is set, and
dispatch the non-cancelable `mdl-componentupgraded` event. -/
def upgradeOneClass (st : Registry) (element : Nat) (registeredClass : ComponentConfig)
    (upgradedList : List String) : Registry :=
  let st := setDataUpgraded st element (jsJoinComma upgradedList)
  let inst : Component :=
    { id := st.nextComponentId, element_ := element,
      configField := some registeredClass }
  let st := { st with
    createdComponents_ := st.createdComponents_ ++ [inst],
    nextComponentId := st.nextComponentId + 1 }
  let st := registeredClass.callbacks.foldl
    (fun s cb => { s with callbackLog := s.callbackLog ++ [(cb, element)] }) st
  let st := if registeredClass.widget then
      setElemProp st element registeredClass.className inst.id
    else st
  (dispatchEvent st
    { eventType := "mdl-componentupgraded", bubbles := true,
      cancelable := false, target := element }).1

/-- The loop of `upgradeElementInternal` over `classesToUpgrade`.  Entries
are `some config` for descriptor objects and `none` for the JS value `false`
(a failed `findRegisteredClass_` lookup); a `none` entry raises the fatal
`Unable to find a registered component` error, aborting the loop with the
state mutated so far; a `some` entry pushes the class name onto the running
upgraded list and performs the upgrade via `upgradeOneClass`. -/
def upgradeClassesLoop (st : Registry) (element : Nat) (upgradedList : List String) :
    List (Option ComponentConfig) → Registry × Option String
  | [] => (st, none)
  | none :: _ =>
    (st, some "Unable to find a registered component for the given class.")
  | some registeredClass :: rest =>
    upgradeClassesLoop
      (upgradeOneClass st element registeredClass
        (upgradedList ++ [registeredClass.className]))
      element (upgradedList ++ [registeredClass.className]) rest

/-- The candidate scan of `upgradeElementInternal` when no explicit type name
is supplied: every registered descriptor whose marker class occurs in the
element's class list, not already accumulated, and for which the element is
not already upgraded (conditions evaluated against the state at scan time). -/
def scanCandidates (st : Registry) (element : Nat) : List ComponentConfig :=
  st.registeredComponents_.foldl
    (fun classesToUpgrade component =>
      if component.cssClass ∈ (st.dom element).classList ∧
          component ∉ classesToUpgrade ∧
          ¬ isElementUpgraded_ (st.dom element) component.className
      then classesToUpgrade ++ [component]
      else classesToUpgrade)
    []

/-- JS truthiness test `!optJsClass`: `undefined` and the empty string are
falsy. -/
def jsFalsyString : Option String → Prop
  | none => True
  | some s => s = ""

instance (o : Option String) : Decidable (jsFalsyString o) := by
  cases o <;> simp [jsFalsyString] <;> infer_instance

/-- `upgradeElementInternal(element, optJsClass)`: validates the argument,
dispatches the cancellable `mdl-componentupgrading` event (aborting silently
when a listener cancels it), snapshots the upgraded list, determines the
candidate descriptors (scan of all registered descriptors when `optJsClass`
is falsy, otherwise the single lookup guarded by `isElementUpgraded_`) and
runs the upgrade loop. -/
def upgradeElementInternal (st : Registry) (element : Nat) (optJsClass : Option String) :
    Registry × Option String :=
  if ¬ (st.dom element).kind.isElement then
    (st, some "Invalid argument provided to upgrade MDL element.")
  else
    let d := dispatchEvent st
      { eventType := "mdl-componentupgrading", bubbles := true,
        cancelable := true, target := element }
    let st := d.1
    if d.2 then (st, none)
    else
      let upgradedList := getUpgradedListOfElement_ (st.dom element)
      let classesToUpgrade : List (Option ComponentConfig) :=
        if jsFalsyString optJsClass then
          (scanCandidates st element).map some
        else
          let jsClass := match optJsClass with | some s => s | none => ""
          if ¬ isElementUpgraded_ (st.dom element) jsClass then
            [(findRegisteredClass_ jsClass none st.registeredComponents_).1]
          else []
      upgradeClassesLoop st element upgradedList classesToUpgrade

/-! ### DOM-wide upgrade -/

/-- The element loop shared by the `upgradeDomInternal` branches: upgrade each
selected element in order for the given type name, propagating a thrown
error. -/
def upgradeElemLoop (st : Registry) (js : Option String) :
    List Nat → Registry × Option String
  | [] => (st, none)
  | element :: rest =>
    match upgradeElementInternal st element js with
    | (st', none) => upgradeElemLoop st' js rest
    | (st', some e) => (st', some e)

/-- The no-argument branch of `upgradeDomInternal`: for every registered
descriptor, in registration order, recurse with both the type name and the
marker class.  With both arguments supplied the recursive call skips the
lookup and queries the marker class directly, which is what each loop step
does here.  (The source reads the live `registeredComponents_` array; the
snapshot fold is equivalent because element upgrades never modify the
descriptor collection.) -/
def upgradeDomLoop (st : Registry) : List ComponentConfig → Registry × Option String
  | [] => (st, none)
  | c :: cs =>
    match upgradeElemLoop st (some c.className)
        (querySelectorAllByClass st c.cssClass) with
    | (st', none) => upgradeDomLoop st' cs
    | (st', some e) => (st', some e)

/-- `upgradeDomInternal(optJsClass, optCssClass)`: with no arguments, iterate
all registered descriptors; otherwise resolve the marker class (looking it up
by type name when omitted; an unregistered type leaves it undefined, and
`'.' + undefined` is the literal selector `".undefined"`), select every
matching element and upgrade each for `optJsClass`. -/
def upgradeDomInternal (st : Registry) (optJsClass optCssClass : Option String) :
    Registry × Option String :=
  match optJsClass, optCssClass with
  | none, none => upgradeDomLoop st st.registeredComponents_
  | js, css =>
    let resolvedCss : Option String :=
      match css with
      | some c => some c
      | none =>
        match js with
        | some jsClass =>
          match (findRegisteredClass_ jsClass none st.registeredComponents_).1 with
          | some registeredClass => some registeredClass.cssClass
          | none => none
        | none => none
    let selector := match resolvedCss with | some c => c | none => "undefined"
    upgradeElemLoop st js (querySelectorAllByClass st selector)

/-- The loop of `upgradeAllRegisteredInternal`: `upgradeDomInternal` with the
type name only, for each descriptor.  (Snapshot fold over the live array,
equivalent as above.) -/
def upgradeAllLoop (st : Registry) : List ComponentConfig → Registry × Option String
  | [] => (st, none)
  | c :: cs =>
    match upgradeDomInternal st (some c.className) none with
    | (st', none) => upgradeAllLoop st' cs
    | (st', some e) => (st', some e)

/-- `upgradeAllRegisteredInternal()`: a DOM-wide upgrade pass for every
registered descriptor, in registration order. -/
def upgradeAllRegisteredInternal (st : Registry) : Registry × Option String :=
  upgradeAllLoop st st.registeredComponents_

/-! ### Bulk upgrade of element lists -/

/-- The input of `upgradeElementsInternal`: a single value, a JS array, or an
array-like collection (`NodeList`/`HTMLCollection`). -/
inductive ElementsArg where
  | single (element : Nat)
  | array (elements : List Nat)
  | collection (elements : List Nat)
deriving DecidableEq, Repr

/-- The input normalisation of `upgradeElementsInternal`: an array is taken
as is; a non-array that is an `Element` becomes a one-element array; anything
else goes through `Array.prototype.slice.call` (the identity on an
array-like collection, and the empty array on a single non-element value,
which has no `length` property). -/
def normalizeElementsArg (st : Registry) : ElementsArg → List Nat
  | .array elements => elements
  | .collection elements => elements
  | .single element =>
    if (st.dom element).kind.isElement then [element] else []

/-- The recursion of `upgradeElementsInternal` over the normalised list,
expressed as a state-threading fold: each entry that is an `HTMLElement` is
upgraded with no explicit type and then, if it has children, the children
are upgraded recursively; other entries are skipped.  A thrown error is
carried through the remaining fold steps unchanged, which models the JS
loop aborting on a thrown exception (the final state and error coincide).
The `fuel` argument bounds the recursion depth into children (the JS
recursion needs no bound because a real DOM is finite and acyclic; any fuel
at least the tree height gives the full traversal).

`upgradeElementsStepF` is the loop body, abstracted over the recursive call
into the children. -/
def upgradeElementsStepF
    (recurseChildren : Registry → List Nat → Registry × Option String)
    (acc : Registry × Option String) (element : Nat) : Registry × Option String :=
  match acc with
  | (s, some e) => (s, some e)
  | (s, none) =>
    if (s.dom element).kind = NodeKind.html then
      match upgradeElementInternal s element none with
      | (s1, some e) => (s1, some e)
      | (s1, none) =>
        if 0 < (s1.dom element).children.length then
          recurseChildren s1 (s1.dom element).children
        else (s1, none)
    else (s, none)

def upgradeElementsGo : Nat → Registry → List Nat → Registry × Option String
  | fuel, st, elements =>
    elements.foldl
      (upgradeElementsStepF
        (match fuel with
          | 0 => fun s1 _ => (s1, none)
          | f + 1 => fun s1 cs => upgradeElementsGo f s1 cs))
      (st, none)

/-- `upgradeElementsInternal(elements)`: normalise the input and run the
recursive per-element upgrade. -/
def upgradeElementsInternal (fuel : Nat) (st : Registry) (elements : ElementsArg) :
    Registry × Option String :=
  upgradeElementsGo fuel st (normalizeElementsArg st elements)

/-- The visit order realised by `upgradeElementsGo` on a static node
structure: a pre-order traversal (each `HTMLElement` entry, then its
subtree, then the remaining entries) restricted to `HTMLElement` nodes,
with the same fuel discipline. -/
def preorderGo (st : Registry) : Nat → List Nat → List Nat
  | fuel, l =>
    l.flatMap (fun element =>
      if (st.dom element).kind = NodeKind.html then
        element ::
          (if 0 < (st.dom element).children.length then
            match fuel with
            | 0 => []
            | f + 1 => preorderGo st f (st.dom element).children
          else [])
      else [])

/-! ### Registration -/

/-- The descriptor record `registerInternal` builds from the public input
(`newConfig` in the source): the `widget` flag defaults to `true` when
omitted, and the callback list starts empty. -/
def newConfigOf (config : ComponentConfigPublic) : ComponentConfig :=
  { classConstructor := config.constructor,
    className := config.classAsString,
    cssClass := config.cssClass,
    widget := match config.widget with | none => true | some b => b,
    callbacks := [] }

/-- `registerInternal(config)`: fails fast when the factory's prototype
already declares the reserved back-reference field; otherwise replaces the
descriptor with the same type name in place, or appends a new one. -/
def registerInternal (st : Registry) (config : ComponentConfigPublic) :
    Registry × Option String :=
  let newConfig := newConfigOf config
  if config.protoHasConfigProperty then
    (st, some ("MDL component classes must not have " ++ componentConfigProperty_ ++
      " defined as a property."))
  else
    let p := findRegisteredClass_ config.classAsString (some newConfig)
      st.registeredComponents_
    match p.1 with
    | some _ => ({ st with registeredComponents_ := p.2 }, none)
    | none =>
      ({ st with registeredComponents_ := st.registeredComponents_ ++ [newConfig] },
       none)

/-- The in-place callback append of `registerUpgradedCallbackInternal`: the
first descriptor with the given type name gets the callback appended.  (In JS
the descriptor object is mutated in place; the shared reference from existing
instances' back-reference fields is unobservable because instance callback
lists are never read.) -/
def appendCallbackToFirst (name : String) (cb : Nat) :
    List ComponentConfig → List ComponentConfig
  | [] => []
  | c :: cs =>
    if c.className = name then { c with callbacks := c.callbacks ++ [cb] } :: cs
    else c :: appendCallbackToFirst name cb cs

/-- `registerUpgradedCallbackInternal(jsClass, callback)`: append the callback
to the named descriptor's list; silently a no-op when the type name is not
registered. -/
def registerUpgradedCallbackInternal (st : Registry) (jsClass : String) (callback : Nat) :
    Registry :=
  match (findRegisteredClass_ jsClass none st.registeredComponents_).1 with
  | some _ =>
    { st with registeredComponents_ :=
        appendCallbackToFirst jsClass callback st.registeredComponents_ }
  | none => st

/-! ### Downgrade -/

/-- JS `createdComponents_.indexOf(component)` followed by
`splice(componentIndex, 1)`: removes the first occurrence, and — because
`splice(-1, 1)` removes the last element — removes the last element when the
component is not present at all. -/
def removeFirstComponent (l : List Component) (component : Component) :
    List Component :=
  match l.findIdx? (fun x => x = component) with
  | some i => l.eraseIdx i
  | none => l.dropLast

/-- `deconstructComponentInternal(component)`: remove the instance from the
created list, re-parse the owning element's `data-upgraded` attribute (a
`null` attribute makes `null.split` throw, modelled as an error), look up
`component[componentConfigProperty_].classAsString` in the parsed list — the
back-reference field holds a descriptor record, which has a `className` field
but no `classAsString` field, so the lookup key is `undefined` and the index
is always `-1` — splice one entry at that index (removing the **last** list
entry), write the attribute back, and dispatch the non-cancelable
`mdl-componentdowngraded` event. -/
def deconstructComponentInternal (st : Registry) (component : Component) :
    Registry × Option String :=
  let st := { st with createdComponents_ :=
      removeFirstComponent st.createdComponents_ component }
  match (st.dom component.element_).dataUpgraded with
  | none =>
    (st, some "TypeError: Cannot read property split of null")
  | some attr =>
    match component.configField with
    | none =>
      (st, some "TypeError: Cannot read property classAsString of undefined")
    | some _cfg =>
      let upgrades := jsSplitComma attr
      let componentPlace := jsIndexOf upgrades none
      let upgrades := spliceOne upgrades componentPlace
      let st := setDataUpgraded st component.element_ (jsJoinComma upgrades)
      let st := (dispatchEvent st
        { eventType := "mdl-componentdowngraded", bubbles := true,
          cancelable := false, target := component.element_ }).1
      (st, none)

/-- The snapshot-then-teardown fold of `downgradeNode`'s `forEach` (a thrown
error propagates and aborts the iteration). -/
def downgradeList (st : Registry) : List Component → Registry × Option String
  | [] => (st, none)
  | c :: cs =>
    match deconstructComponentInternal st c with
    | (st', none) => downgradeList st' cs
    | (st', some e) => (st', some e)

/-- The auxiliary `downgradeNode` of `downgradeNodesInternal`: filter the
created components to those owned by this exact node (a snapshot), then
deconstruct each. -/
def downgradeNode (st : Registry) (node : Nat) : Registry × Option String :=
  downgradeList st
    (st.createdComponents_.filter (fun item => item.element_ == node))

/-- The input of `downgradeNodesInternal`: a JS array or `NodeList` (modelled
together), a single value, or a value of any other shape. -/
inductive NodesArg where
  | single (node : Nat)
  | many (nodes : List Nat)
  | invalid
deriving DecidableEq, Repr

/-- The per-node loop over an array/`NodeList` argument, propagating errors. -/
def downgradeNodesLoop (st : Registry) : List Nat → Registry × Option String
  | [] => (st, none)
  | n :: ns =>
    match downgradeNode st n with
    | (st', none) => downgradeNodesLoop st' ns
    | (st', some e) => (st', some e)

/-- `downgradeNodesInternal(nodes)`: arrays and `NodeList`s are iterated
per node, a single `Node` is downgraded directly, and anything else raises
the fatal invalid-argument error. -/
def downgradeNodesInternal (st : Registry) (nodes : NodesArg) :
    Registry × Option String :=
  match nodes with
  | .many ns => downgradeNodesLoop st ns
  | .single n =>
    if (st.dom n).kind.isNode then downgradeNode st n
    else (st, some "Invalid argument provided to downgrade MDL nodes.")
  | .invalid => (st, some "Invalid argument provided to downgrade MDL nodes.")

/-! ### Reachable states -/

/-- The type name recorded in an instance's back-reference field (the empty
string for an unassigned field; reachable instances always have the field
assigned). -/
def typeOfComponent (c : Component) : String :=
  match c.configField with
  | some cfg => cfg.className
  | none => ""

/-- The type names of the live instances owned by an element, in creation
order. -/
def typesOn (st : Registry) (element : Nat) : List String :=
  (st.createdComponents_.filter (fun c => c.element_ == element)).map
    typeOfComponent

/-- One invocation of a public registry operation.  Type names supplied to
`register` carry the (implicit in the source) identifier assumption that they
contain no comma: the comma-joined `data-upgraded` encoding cannot represent
a type name with a comma in it. -/
inductive Step : Registry → Registry → Prop where
  | register (st : Registry) (config : ComponentConfigPublic)
      (hname : ',' ∉ config.classAsString.data) :
      Step st (registerInternal st config).1
  | registerUpgradedCallback (st : Registry) (jsClass : String) (callback : Nat) :
      Step st (registerUpgradedCallbackInternal st jsClass callback)
  | upgradeDom (st : Registry) (optJsClass optCssClass : Option String) :
      Step st (upgradeDomInternal st optJsClass optCssClass).1
  | upgradeElement (st : Registry) (element : Nat) (optJsClass : Option String) :
      Step st (upgradeElementInternal st element optJsClass).1
  | upgradeElements (st : Registry) (fuel : Nat) (elements : ElementsArg) :
      Step st (upgradeElementsInternal fuel st elements).1
  | upgradeAllRegistered (st : Registry) :
      Step st (upgradeAllRegisteredInternal st).1
  | downgradeElements (st : Registry) (nodes : NodesArg) :
      Step st (downgradeNodesInternal st nodes).1

/-- States reachable from a freshly loaded page (empty registry, no live
instances, no `data-upgraded` attributes in the document) through the public
registry operations. -/
inductive Reachable : Registry → Prop where
  | init (dom0 : Nat → Elem) (docOrder : List Nat) (prevent : Nat → Bool)
      (h : ∀ i, (dom0 i).dataUpgraded = none) :
      Reachable
        { registeredComponents_ := [], createdComponents_ := [],
          dom := dom0, docOrder := docOrder, preventUpgrade := prevent,
          events := [], callbackLog := [], nextComponentId := 0 }
  | step {st st' : Registry} : Reachable st → Step st st' → Reachable st'

/-! ### Derived observers and the reachable-state invariant -/

/-- The elements on which `mdl-componentupgrading` has been dispatched, in
dispatch order: the visit trace of the single-element upgrade operation. -/
def upgradingTargets (st : Registry) : List Nat :=
  (st.events.filter (fun ev => ev.eventType == "mdl-componentupgrading")).map
    (fun ev => ev.target)

/-- The parts of the state that element upgrades never modify: the descriptor
collection, the document structure (order, node kinds, class lists, child
lists) and the cancellation environment. -/
def SameSkel (st st' : Registry) : Prop :=
  st'.registeredComponents_ = st.registeredComponents_ ∧
  st'.docOrder = st.docOrder ∧
  st'.preventUpgrade = st.preventUpgrade ∧
  ∀ i, (st'.dom i).kind = (st.dom i).kind ∧
    (st'.dom i).classList = (st.dom i).classList ∧
    (st'.dom i).children = (st.dom i).children

/-- The invariant maintained by the public registry operations:
type names are unique and comma-free across descriptors; every live instance
has its back-reference field assigned to a descriptor record with a
comma-free, non-empty type name; instance identities are distinct and below
the id supply; and each element's `data-upgraded` attribute is exactly the
comma-join of the sentinel `""` followed by the type names of the element's
live instances in creation order (or still absent, with no live instance). -/
structure Inv (st : Registry) : Prop where
  nodupNames : (st.registeredComponents_.map ComponentConfig.className).Nodup
  regCommaFree : ∀ cfg ∈ st.registeredComponents_, ',' ∉ cfg.className.data
  compsOk : ∀ c ∈ st.createdComponents_, ∃ cfg, c.configField = some cfg ∧
      ',' ∉ cfg.className.data ∧ cfg.className ≠ ""
  idsNodup : (st.createdComponents_.map Component.id).Nodup
  idsLt : ∀ c ∈ st.createdComponents_, c.id < st.nextComponentId
  sync : ∀ element,
    ((st.dom element).dataUpgraded = none ∧ typesOn st element = []) ∨
    (st.dom element).dataUpgraded = some (jsJoinComma ("" :: typesOn st element))

/-- The list of nodes denoted by a `downgradeElements` argument. -/
def nodesOf : NodesArg → List Nat
  | .single n => [n]
  | .many ns => ns
  | .invalid => []

/-- The arguments `downgradeNodesInternal` accepts without throwing: an
array/`NodeList`, or a single value that is a `Node`. -/
def validNodesArg (st : Registry) : NodesArg → Prop
  | .single n => (st.dom n).kind.isNode
  | .many _ => True
  | .invalid => False

instance (st : Registry) (a : NodesArg) : Decidable (validNodesArg st a) := by
  cases a <;> simp [validNodesArg] <;> infer_instance

/-! ### Concrete states used to witness the theorems -/

/-- A host-page element carrying the marker class `"w-js"`. -/
def elemW : Elem :=
  { kind := .html, classList := ["w-js"], dataUpgraded := none,
    children := [], props := [] }

/-- A host-page element with no marker classes (its upgrade gets cancelled in
the examples: see `preventW`). -/
def elemPlain : Elem :=
  { kind := .html, classList := [], dataUpgraded := none,
    children := [], props := [] }

/-- A non-node value (everything outside the two-node example document). -/
def elemNone : Elem :=
  { kind := .nonNode, classList := [], dataUpgraded := none,
    children := [], props := [] }

/-- The example document: node `0` is `elemW`, node `1` is `elemPlain`. -/
def domW : Nat → Elem :=
  fun i => if i = 0 then elemW else if i = 1 then elemPlain else elemNone

/-- In the example environment, a listener cancels the pre-upgrade event on
node `1` only. -/
def preventW : Nat → Bool := fun i => i == 1

/-- The freshly loaded example state. -/
def stInit : Registry :=
  { registeredComponents_ := [], createdComponents_ := [], dom := domW,
    docOrder := [0, 1], preventUpgrade := preventW, events := [],
    callbackLog := [], nextComponentId := 0 }

/-- The registration input of the `"Widget"` example component. -/
def cfgWidget : ComponentConfigPublic :=
  { constructor := 7, protoHasConfigProperty := false,
    classAsString := "Widget", cssClass := "w-js", widget := none }

/-- The example state after registering `"Widget"`. -/
def stReg : Registry := (registerInternal stInit cfgWidget).1

/-- The example state after additionally upgrading node `0` for `"Widget"`. -/
def stUp : Registry := (upgradeElementInternal stReg 0 (some "Widget")).1

/-- A second registration input with the same type name `"Widget"` but a
different marker class, used to exercise in-place replacement. -/
def cfgWidget2 : ComponentConfigPublic :=
  { constructor := 8, protoHasConfigProperty := false,
    classAsString := "Widget", cssClass := "w2-js", widget := some false }

/-- A registration input whose factory prototype declares the reserved
back-reference field. -/
def cfgBad : ComponentConfigPublic :=
  { constructor := 9, protoHasConfigProperty := true,
    classAsString := "Bad", cssClass := "bad-js", widget := none }

/-- The component instance created in `stUp`. -/
def compWidget : Component :=
  { id := 0, element_ := 0, configField := some (newConfigOf cfgWidget) }

/-! ### Lemmas about the string primitives -/

lemma splitCommaChars_ne_nil : ∀ l : List Char, splitCommaChars l ≠ [] := by
  intro l
  cases l with
  | nil => simp [splitCommaChars]
  | cons c cs =>
    unfold splitCommaChars
    cases hs : splitCommaChars cs with
    | nil => simp
    | cons g gs => by_cases hc : c = ',' <;> simp [hc]

lemma splitCommaChars_of_not_mem {g : List Char} (h : ',' ∉ g) :
    splitCommaChars g = [g] := by
  induction g with
  | nil => rfl
  | cons c cs ih =>
    have hc : c ≠ ',' := fun e => h (e ▸ List.mem_cons_self c cs)
    have hcs : ',' ∉ cs := fun m => h (List.mem_cons_of_mem _ m)
    unfold splitCommaChars
    rw [ih hcs]
    simp [hc]

lemma splitCommaChars_append {g t : List Char} (h : ',' ∉ g) :
    splitCommaChars (g ++ ',' :: t) = g :: splitCommaChars t := by
  induction g with
  | nil =>
    obtain ⟨g0, gs0, hsp⟩ : ∃ g0 gs0, splitCommaChars t = g0 :: gs0 := by
      cases hs : splitCommaChars t with
      | nil => exact absurd hs (splitCommaChars_ne_nil t)
      | cons a b => exact ⟨a, b, rfl⟩
    simp [splitCommaChars, hsp]
  | cons c cs ih =>
    have hc : c ≠ ',' := fun e => h (e ▸ List.mem_cons_self c cs)
    have hcs : ',' ∉ cs := fun m => h (List.mem_cons_of_mem _ m)
    have : (c :: cs) ++ ',' :: t = c :: (cs ++ ',' :: t) := rfl
    rw [this]
    unfold splitCommaChars
    rw [ih hcs]
    simp only [hc, if_false]
    cases t <;> rfl

lemma splitCommaChars_joinCommaChars {l : List (List Char)} (hne : l ≠ [])
    (h : ∀ g ∈ l, ',' ∉ g) : splitCommaChars (joinCommaChars l) = l := by
  induction l with
  | nil => exact absurd rfl hne
  | cons g gs ih =>
    cases gs with
    | nil =>
      rw [joinCommaChars]
      exact splitCommaChars_of_not_mem (h g (List.mem_cons_self _ _))
    | cons g' gs' =>
      rw [joinCommaChars, splitCommaChars_append (h g (List.mem_cons_self _ _))]
      rw [ih (by simp) (fun x hx => h x (List.mem_cons_of_mem _ hx))]

lemma jsSplitComma_jsJoinComma {l : List String} (hne : l ≠ [])
    (h : ∀ s ∈ l, ',' ∉ s.data) : jsSplitComma (jsJoinComma l) = l := by
  unfold jsSplitComma jsJoinComma
  have hd : (String.mk (joinCommaChars (l.map String.data))).data
      = joinCommaChars (l.map String.data) := rfl
  rw [hd]
  rw [splitCommaChars_joinCommaChars (by simpa using hne)
    (by intro g hg; obtain ⟨s, hs, rfl⟩ := List.mem_map.mp hg; exact h s hs)]
  rw [List.map_map]
  have hid : ((fun g => (⟨g⟩ : String)) ∘ String.data) = id := funext fun s => rfl
  rw [hid, List.map_id]

lemma jsJoinComma_single (s : String) : jsJoinComma [s] = s := rfl

lemma jsSplitComma_empty : jsSplitComma "" = [""] := rfl

/-! ### Lemmas about descriptor lookup and replacement -/

lemma findRegisteredClass_none_snd (name : String) (l : List ComponentConfig) :
    (findRegisteredClass_ name none l).2 = l := by
  induction l with
  | nil => rfl
  | cons c cs ih =>
    unfold findRegisteredClass_
    by_cases hc : c.className = name <;> simp [hc, ih]

lemma findRegisteredClass_fst_none_iff (name : String)
    (opt : Option ComponentConfig) (l : List ComponentConfig) :
    (findRegisteredClass_ name opt l).1 = none ↔ ∀ c ∈ l, c.className ≠ name := by
  induction l with
  | nil => simp [findRegisteredClass_]
  | cons c cs ih =>
    unfold findRegisteredClass_
    by_cases hc : c.className = name
    · cases opt <;> simp [hc]
    · simp [hc, ih]

lemma findRegisteredClass_fst_some {name : String} {l : List ComponentConfig}
    {cfg : ComponentConfig} (h : (findRegisteredClass_ name none l).1 = some cfg) :
    cfg ∈ l ∧ cfg.className = name := by
  induction l with
  | nil => simp [findRegisteredClass_] at h
  | cons c cs ih =>
    unfold findRegisteredClass_ at h
    by_cases hc : c.className = name
    · simp [hc] at h
      exact ⟨by simp [h], h ▸ hc⟩
    · simp [hc] at h
      obtain ⟨h1, h2⟩ := ih h
      exact ⟨List.mem_cons_of_mem _ h1, h2⟩

lemma findRegisteredClass_self_of_nodup {l : List ComponentConfig}
    (hnd : (l.map ComponentConfig.className).Nodup) {c : ComponentConfig}
    (hc : c ∈ l) : (findRegisteredClass_ c.className none l).1 = some c := by
  induction l with
  | nil => cases hc
  | cons d ds ih =>
    unfold findRegisteredClass_
    rcases List.mem_cons.mp hc with rfl | hmem
    · simp
    · have hd : d.className ≠ c.className := by
        intro e
        have : c.className ∈ ds.map ComponentConfig.className :=
          List.mem_map.mpr ⟨c, hmem, rfl⟩
        exact (List.nodup_cons.mp hnd).1 (e ▸ this)
      simp [hd, ih (List.nodup_cons.mp hnd).2 hmem]

lemma findRegisteredClass_replace_none {name : String} {r : ComponentConfig}
    {l : List ComponentConfig} (h : ∀ c ∈ l, c.className ≠ name) :
    findRegisteredClass_ name (some r) l = (none, l) := by
  induction l with
  | nil => rfl
  | cons c cs ih =>
    unfold findRegisteredClass_
    have hc := h c (List.mem_cons_self _ _)
    simp [hc, ih (fun x hx => h x (List.mem_cons_of_mem _ hx))]

lemma findRegisteredClass_replace_some {name : String} {r : ComponentConfig}
    {l : List ComponentConfig} {i : Nat}
    (h : l.findIdx? (fun c => decide (c.className = name)) = some i) :
    findRegisteredClass_ name (some r) l = (some r, l.set i r) := by
  induction l generalizing i with
  | nil => simp [List.findIdx?] at h
  | cons c cs ih =>
    unfold findRegisteredClass_
    by_cases hc : c.className = name
    · rw [List.findIdx?_cons] at h
      simp [hc] at h
      simp [hc, ← h]
    · rw [List.findIdx?_cons] at h
      simp [hc] at h
      obtain ⟨j, hj, rfl⟩ := h
      simp [hc, ih hj]

lemma callbackFold_eq (cbs : List Nat) (st : Registry) (element : Nat) :
    cbs.foldl (fun s cb => { s with callbackLog := s.callbackLog ++ [(cb, element)] }) st
      = { st with callbackLog := st.callbackLog ++ cbs.map (fun cb => (cb, element)) } := by
  induction cbs generalizing st with
  | nil => simp
  | cons cb cbs ih => simp [ih]

lemma upgradeOneClass_spec (st : Registry) (element : Nat) (rc : ComponentConfig)
    (ul : List String) :
    (upgradeOneClass st element rc ul).registeredComponents_ = st.registeredComponents_ ∧
    (upgradeOneClass st element rc ul).docOrder = st.docOrder ∧
    (upgradeOneClass st element rc ul).preventUpgrade = st.preventUpgrade ∧
    (upgradeOneClass st element rc ul).createdComponents_
      = st.createdComponents_ ++
        [({ id := st.nextComponentId, element_ := element,
            configField := some rc } : Component)] ∧
    (upgradeOneClass st element rc ul).nextComponentId = st.nextComponentId + 1 ∧
    ((upgradeOneClass st element rc ul).dom element).dataUpgraded
      = some (jsJoinComma ul) ∧
    (∀ j, j ≠ element → (upgradeOneClass st element rc ul).dom j = st.dom j) ∧
    (∀ j, ((upgradeOneClass st element rc ul).dom j).kind = (st.dom j).kind ∧
      ((upgradeOneClass st element rc ul).dom j).classList = (st.dom j).classList ∧
      ((upgradeOneClass st element rc ul).dom j).children = (st.dom j).children) ∧
    (upgradeOneClass st element rc ul).events
      = st.events ++
        [({ eventType := "mdl-componentupgraded", bubbles := true,
            cancelable := false, target := element } : Ev)] ∧
    (upgradeOneClass st element rc ul).callbackLog
      = st.callbackLog ++ rc.callbacks.map (fun cb => (cb, element)) := by
  by_cases hw : rc.widget <;>
    (refine ⟨?_, ?_, ?_, ?_, ?_, ?_, ?_, ?_, ?_, ?_⟩ <;>
      first
        | (intro j hj
           simp [upgradeOneClass, callbackFold_eq, hw, setElemProp,
             setDataUpgraded, dispatchEvent, hj])
        | (intro j
           by_cases hj : j = element <;>
             simp [upgradeOneClass, callbackFold_eq, hw, setElemProp,
               setDataUpgraded, dispatchEvent, hj])
        | simp [upgradeOneClass, callbackFold_eq, hw, setElemProp,
            setDataUpgraded, dispatchEvent])

lemma sameSkel_refl (st : Registry) : SameSkel st st :=
  ⟨rfl, rfl, rfl, fun _ => ⟨rfl, rfl, rfl⟩⟩

lemma sameSkel_trans {a b c : Registry} (h1 : SameSkel a b) (h2 : SameSkel b c) :
    SameSkel a c := by
  obtain ⟨r1, d1, p1, f1⟩ := h1
  obtain ⟨r2, d2, p2, f2⟩ := h2
  refine ⟨r2.trans r1, d2.trans d1, p2.trans p1, fun i => ?_⟩
  obtain ⟨k1, c1, ch1⟩ := f1 i
  obtain ⟨k2, c2, ch2⟩ := f2 i
  exact ⟨k2.trans k1, c2.trans c1, ch2.trans ch1⟩

lemma sameSkel_upgradeOneClass (st : Registry) (element : Nat)
    (rc : ComponentConfig) (ul : List String) :
    SameSkel st (upgradeOneClass st element rc ul) := by
  obtain ⟨h1, h2, h3, _, _, _, _, h8, _, _⟩ := upgradeOneClass_spec st element rc ul
  exact ⟨h1, h2, h3, h8⟩

lemma upgradeClassesLoop_skel (element : Nat) :
    ∀ (cands : List (Option ComponentConfig)) (st : Registry) (ul : List String),
      SameSkel st (upgradeClassesLoop st element ul cands).1 := by
  intro cands
  induction cands with
  | nil => intro st ul; exact sameSkel_refl st
  | cons copt rest ih =>
    intro st ul
    cases copt with
    | none => exact sameSkel_refl st
    | some rc =>
      exact sameSkel_trans (sameSkel_upgradeOneClass st element rc _) (ih _ _)

lemma upgradingTargets_congr {st st' : Registry} {evs : List Ev}
    (h : st'.events = st.events ++ evs)
    (hevs : ∀ e ∈ evs, e.eventType ≠ "mdl-componentupgrading") :
    upgradingTargets st' = upgradingTargets st := by
  unfold upgradingTargets
  rw [h, List.filter_append]
  have : evs.filter (fun ev => ev.eventType == "mdl-componentupgrading") = [] := by
    rw [List.filter_eq_nil_iff]
    intro e he
    simpa using hevs e he
  rw [this, List.append_nil]

lemma upgradeClassesLoop_upgradingTargets (element : Nat) :
    ∀ (cands : List (Option ComponentConfig)) (st : Registry) (ul : List String),
      upgradingTargets (upgradeClassesLoop st element ul cands).1 = upgradingTargets st := by
  intro cands
  induction cands with
  | nil => intro st ul; rfl
  | cons copt rest ih =>
    intro st ul
    cases copt with
    | none => rfl
    | some rc =>
      rw [show upgradeClassesLoop st element ul (some rc :: rest)
          = upgradeClassesLoop (upgradeOneClass st element rc (ul ++ [rc.className]))
            element (ul ++ [rc.className]) rest from rfl]
      rw [ih]
      obtain ⟨_, _, _, _, _, _, _, _, h9, _⟩ :=
        upgradeOneClass_spec st element rc (ul ++ [rc.className])
      exact upgradingTargets_congr h9 (by intro e he; simp at he; simp [he])

lemma upgradeClassesLoop_map_some_err (element : Nat) :
    ∀ (l : List ComponentConfig) (st : Registry) (ul : List String),
      (upgradeClassesLoop st element ul (l.map some)).2 = none := by
  intro l
  induction l with
  | nil => intro st ul; rfl
  | cons rc rest ih => intro st ul; exact ih _ _

lemma typesOn_append_comp {st st' : Registry} {c : Component}
    (h : st'.createdComponents_ = st.createdComponents_ ++ [c]) (e : Nat) :
    typesOn st' e = typesOn st e ++
      (if c.element_ = e then [typeOfComponent c] else []) := by
  unfold typesOn
  rw [h, List.filter_append, List.map_append]
  by_cases hc : c.element_ = e <;> simp [hc]

lemma typesOn_congr {st st' : Registry}
    (h : st'.createdComponents_ = st.createdComponents_) (e : Nat) :
    typesOn st' e = typesOn st e := by
  unfold typesOn; rw [h]

lemma typesOn_commaFree {st : Registry} (hInv : Inv st) {e : Nat} :
    ∀ s ∈ typesOn st e, ',' ∉ s.data := by
  intro s hs
  obtain ⟨c, hc, rfl⟩ := List.mem_map.mp hs
  have hcm : c ∈ st.createdComponents_ := List.mem_of_mem_filter hc
  obtain ⟨cfg, hcfg, hcf, _⟩ := hInv.compsOk c hcm
  simp [typeOfComponent, hcfg, hcf]

lemma typesOn_ne_empty {st : Registry} (hInv : Inv st) {e : Nat} :
    ∀ s ∈ typesOn st e, s ≠ "" := by
  intro s hs
  obtain ⟨c, hc, rfl⟩ := List.mem_map.mp hs
  have hcm : c ∈ st.createdComponents_ := List.mem_of_mem_filter hc
  obtain ⟨cfg, hcfg, _, hne⟩ := hInv.compsOk c hcm
  simp [typeOfComponent, hcfg, hne]

lemma Inv.getList {st : Registry} (hInv : Inv st) (element : Nat) :
    getUpgradedListOfElement_ (st.dom element) = "" :: typesOn st element := by
  rcases hInv.sync element with ⟨hnone, hempty⟩ | hsome
  · simp [getUpgradedListOfElement_, hnone, hempty]
  · rw [getUpgradedListOfElement_, hsome]
    exact jsSplitComma_jsJoinComma (by simp)
      (by
        intro s hs
        rcases List.mem_cons.mp hs with rfl | hmem
        · simp
        · exact typesOn_commaFree hInv s hmem)

lemma inv_upgradeOneClass {st : Registry} (element : Nat) {rc : ComponentConfig}
    (hInv : Inv st) (hcf : ',' ∉ rc.className.data) (hcn : rc.className ≠ "") :
    Inv (upgradeOneClass st element rc (("" :: typesOn st element) ++ [rc.className])) ∧
    typesOn (upgradeOneClass st element rc
        (("" :: typesOn st element) ++ [rc.className])) element
      = typesOn st element ++ [rc.className] := by
  obtain ⟨h1, _, _, h4, h5, h6, h7, _, _, _⟩ :=
    upgradeOneClass_spec st element rc (("" :: typesOn st element) ++ [rc.className])
  have htypes := typesOn_append_comp h4
  have htypesElem : typesOn (upgradeOneClass st element rc
      (("" :: typesOn st element) ++ [rc.className])) element
      = typesOn st element ++ [rc.className] := by
    rw [htypes element]; simp [typeOfComponent]
  refine ⟨⟨?_, ?_, ?_, ?_, ?_, ?_⟩, htypesElem⟩
  · rw [h1]; exact hInv.nodupNames
  · rw [h1]; exact hInv.regCommaFree
  · intro c hc
    rw [h4] at hc
    rcases List.mem_append.mp hc with hold | hnew
    · exact hInv.compsOk c hold
    · simp at hnew
      exact ⟨rc, by simp [hnew], hcf, hcn⟩
  · rw [h4, List.map_append]
    rw [List.nodup_append]
    refine ⟨hInv.idsNodup, by simp, ?_⟩
    intro a ha
    simp at ha ⊢
    obtain ⟨c, hc, rfl⟩ := ha
    exact Nat.ne_of_lt (hInv.idsLt c hc)
  · intro c hc
    rw [h4] at hc
    rw [h5]
    rcases List.mem_append.mp hc with hold | hnew
    · exact Nat.lt_succ_of_lt (hInv.idsLt c hold)
    · simp at hnew
      simp [hnew]
  · intro e
    by_cases he : e = element
    · subst he
      right
      rw [h6, htypesElem]
      simp
    · rw [h7 e he, htypes e]
      rw [if_neg (fun q => he (Eq.symm q)), List.append_nil]
      exact hInv.sync e

lemma upgradeClassesLoop_inv (element : Nat) :
    ∀ (cands : List (Option ComponentConfig)) (st : Registry),
      Inv st →
      (∀ cfg, some cfg ∈ cands → ',' ∉ cfg.className.data ∧ cfg.className ≠ "") →
      Inv (upgradeClassesLoop st element ("" :: typesOn st element) cands).1 := by
  intro cands
  induction cands with
  | nil => intro st h _; exact h
  | cons copt rest ih =>
    intro st hInv hc
    cases copt with
    | none => exact hInv
    | some rc =>
      have hrc := hc rc (List.mem_cons_self _ _)
      obtain ⟨hInv', htypes⟩ := inv_upgradeOneClass element hInv hrc.1 hrc.2
      have hrest := ih _ hInv' (fun cfg hm => hc cfg (List.mem_cons_of_mem _ hm))
      rw [htypes] at hrest
      exact hrest

lemma inv_congr {st st' : Registry}
    (hr : st'.registeredComponents_ = st.registeredComponents_)
    (hc : st'.createdComponents_ = st.createdComponents_)
    (hd : st'.dom = st.dom) (hn : st'.nextComponentId = st.nextComponentId)
    (h : Inv st) : Inv st' := by
  have ht : ∀ e, typesOn st' e = typesOn st e := fun e => by unfold typesOn; rw [hc]
  refine ⟨?_, ?_, ?_, ?_, ?_, ?_⟩
  · rw [hr]; exact h.nodupNames
  · rw [hr]; exact h.regCommaFree
  · rw [hc]; exact h.compsOk
  · rw [hc]; exact h.idsNodup
  · rw [hc, hn]; exact h.idsLt
  · intro e; rw [hd, ht e]; exact h.sync e

lemma scanFold_mem (st : Registry) (element : Nat) :
    ∀ (l acc : List ComponentConfig) (c : ComponentConfig),
      c ∈ l.foldl
        (fun classesToUpgrade component =>
          if component.cssClass ∈ (st.dom element).classList ∧
              component ∉ classesToUpgrade ∧
              ¬ isElementUpgraded_ (st.dom element) component.className
          then classesToUpgrade ++ [component]
          else classesToUpgrade) acc →
      c ∈ acc ∨ (c ∈ l ∧ ¬ isElementUpgraded_ (st.dom element) c.className) := by
  intro l
  induction l with
  | nil => intro acc c hc; exact Or.inl hc
  | cons d ds ih =>
    intro acc c hc
    rw [List.foldl_cons] at hc
    by_cases hcond : d.cssClass ∈ (st.dom element).classList ∧
        d ∉ acc ∧ ¬ isElementUpgraded_ (st.dom element) d.className
    · rw [if_pos hcond] at hc
      rcases ih (acc ++ [d]) c hc with hmem | ⟨h1, h2⟩
      · rcases List.mem_append.mp hmem with h | h
        · exact Or.inl h
        · simp at h
          subst h
          exact Or.inr ⟨List.mem_cons_self _ _, hcond.2.2⟩
      · exact Or.inr ⟨List.mem_cons_of_mem _ h1, h2⟩
    · rw [if_neg hcond] at hc
      rcases ih acc c hc with hmem | ⟨h1, h2⟩
      · exact Or.inl hmem
      · exact Or.inr ⟨List.mem_cons_of_mem _ h1, h2⟩

lemma scanCandidates_mem {st : Registry} {element : Nat} {c : ComponentConfig}
    (h : c ∈ scanCandidates st element) :
    c ∈ st.registeredComponents_ ∧
      ¬ isElementUpgraded_ (st.dom element) c.className := by
  rcases scanFold_mem st element st.registeredComponents_ [] c h with hc | hc
  · cases hc
  · exact hc

lemma upgradeElementInternal_invalid {st : Registry} {element : Nat}
    (js : Option String) (hk : ¬ (st.dom element).kind.isElement) :
    upgradeElementInternal st element js
      = (st, some "Invalid argument provided to upgrade MDL element.") := by
  unfold upgradeElementInternal
  rw [if_pos hk]

lemma upgradeElementInternal_cancel {st : Registry} {element : Nat}
    (js : Option String) (hk : (st.dom element).kind.isElement)
    (hp : st.preventUpgrade element = true) :
    upgradeElementInternal st element js
      = ({ st with events := st.events ++
            [({ eventType := "mdl-componentupgrading", bubbles := true,
                cancelable := true, target := element } : Ev)] }, none) := by
  unfold upgradeElementInternal
  rw [if_neg (fun h => h hk)]
  simp only [dispatchEvent, Bool.true_and, hp, if_true]

lemma upgradeElementInternal_notPrevented {st : Registry} {element : Nat}
    (js : Option String) (hk : (st.dom element).kind.isElement)
    (hp : st.preventUpgrade element = false) :
    upgradeElementInternal st element js
      = (let st2 : Registry := { st with events := st.events ++
            [({ eventType := "mdl-componentupgrading", bubbles := true,
                cancelable := true, target := element } : Ev)] }
         let upgradedList := getUpgradedListOfElement_ (st.dom element)
         let classesToUpgrade : List (Option ComponentConfig) :=
           if jsFalsyString js then (scanCandidates st2 element).map some
           else
             let jsClass := match js with | some s => s | none => ""
             if ¬ isElementUpgraded_ (st.dom element) jsClass then
               [(findRegisteredClass_ jsClass none st.registeredComponents_).1]
             else []
         upgradeClassesLoop st2 element upgradedList classesToUpgrade) := by
  unfold upgradeElementInternal
  rw [if_neg (fun h => h hk)]
  simp only [dispatchEvent, Bool.true_and, hp]
  rw [if_neg (by simp : ¬ (false = true))]

lemma upgradeElementInternal_already {st : Registry} {element : Nat} {T : String}
    (hk : (st.dom element).kind.isElement) (hp : st.preventUpgrade element = false)
    (hT : T ≠ "") (hup : isElementUpgraded_ (st.dom element) T) :
    upgradeElementInternal st element (some T)
      = ({ st with events := st.events ++
            [({ eventType := "mdl-componentupgrading", bubbles := true,
                cancelable := true, target := element } : Ev)] }, none) := by
  rw [upgradeElementInternal_notPrevented (some T) hk hp]
  simp only [jsFalsyString]
  rw [if_neg hT, if_neg (fun h => h hup)]
  rfl

lemma upgradeElementInternal_unregistered {st : Registry} {element : Nat} {T : String}
    (hk : (st.dom element).kind.isElement) (hp : st.preventUpgrade element = false)
    (hT : T ≠ "")
    (hfind : (findRegisteredClass_ T none st.registeredComponents_).1 = none)
    (hup : ¬ isElementUpgraded_ (st.dom element) T) :
    upgradeElementInternal st element (some T)
      = ({ st with events := st.events ++
            [({ eventType := "mdl-componentupgrading", bubbles := true,
                cancelable := true, target := element } : Ev)] },
         some "Unable to find a registered component for the given class.") := by
  rw [upgradeElementInternal_notPrevented (some T) hk hp]
  simp only [jsFalsyString]
  rw [if_neg hT, if_pos hup, hfind]
  rfl

lemma upgradeElementInternal_success {st : Registry} {element : Nat} {T : String}
    {cfg : ComponentConfig}
    (hk : (st.dom element).kind.isElement) (hp : st.preventUpgrade element = false)
    (hT : T ≠ "")
    (hfind : (findRegisteredClass_ T none st.registeredComponents_).1 = some cfg)
    (hup : ¬ isElementUpgraded_ (st.dom element) T) :
    upgradeElementInternal st element (some T)
      = (upgradeOneClass
          { st with events := st.events ++
            [({ eventType := "mdl-componentupgrading", bubbles := true,
                cancelable := true, target := element } : Ev)] }
          element cfg
          (getUpgradedListOfElement_ (st.dom element) ++ [cfg.className]), none) := by
  rw [upgradeElementInternal_notPrevented (some T) hk hp]
  simp only [jsFalsyString]
  rw [if_neg hT, if_pos hup, hfind]
  rfl

lemma upgradeElementInternal_scan {st : Registry} {element : Nat} (js : Option String)
    (hk : (st.dom element).kind.isElement) (hp : st.preventUpgrade element = false)
    (hjs : jsFalsyString js) :
    upgradeElementInternal st element js
      = upgradeClassesLoop
          { st with events := st.events ++
            [({ eventType := "mdl-componentupgrading", bubbles := true,
                cancelable := true, target := element } : Ev)] }
          element (getUpgradedListOfElement_ (st.dom element))
          ((scanCandidates st element).map some) := by
  rw [upgradeElementInternal_notPrevented js hk hp]
  simp only []
  rw [if_pos hjs]
  rfl

lemma inv_events {st : Registry} (evs : List Ev) (h : Inv st) :
    Inv { st with events := evs } :=
  @inv_congr st { st with events := evs } rfl rfl rfl rfl h

lemma inv_upgradeElementInternal {st : Registry} (hInv : Inv st)
    (element : Nat) (js : Option String) :
    Inv (upgradeElementInternal st element js).1 := by
  by_cases hk : (st.dom element).kind.isElement
  · cases hp : st.preventUpgrade element with
    | true =>
      rw [upgradeElementInternal_cancel js hk hp]
      exact inv_events _ hInv
    | false =>
      have hInv2 : Inv ({ st with events := st.events ++
          [({ eventType := "mdl-componentupgrading", bubbles := true,
              cancelable := true, target := element } : Ev)] } : Registry) :=
        inv_events _ hInv
      have hul : getUpgradedListOfElement_ (st.dom element)
          = "" :: typesOn ({ st with events := st.events ++
              [({ eventType := "mdl-componentupgrading", bubbles := true,
                  cancelable := true, target := element } : Ev)] } : Registry)
              element := Inv.getList hInv2 element
      have hmm : "" ∈ getUpgradedListOfElement_ (st.dom element) := by
        rw [hul]; exact List.mem_cons_self _ _
      have hscan : Inv (upgradeClassesLoop
          ({ st with events := st.events ++
            [({ eventType := "mdl-componentupgrading", bubbles := true,
                cancelable := true, target := element } : Ev)] } : Registry)
          element (getUpgradedListOfElement_ (st.dom element))
          ((scanCandidates st element).map some)).1 := by
        rw [hul]
        apply upgradeClassesLoop_inv element _ _ hInv2
        intro cfg hcfg
        simp only [List.mem_map] at hcfg
        obtain ⟨x, hx, he⟩ := hcfg
        have hx' : cfg ∈ scanCandidates st element := by
          cases he; exact hx
        obtain ⟨hreg, hnup⟩ := scanCandidates_mem hx'
        refine ⟨hInv.regCommaFree cfg hreg, ?_⟩
        intro hempty
        exact hnup (by
          rw [hempty]
          unfold isElementUpgraded_
          exact hmm)
      cases js with
      | none =>
        rw [upgradeElementInternal_scan none hk hp trivial]
        exact hscan
      | some T =>
        by_cases hT : T = ""
        · rw [upgradeElementInternal_scan (some T) hk hp (by simp [jsFalsyString, hT])]
          exact hscan
        · by_cases hup : isElementUpgraded_ (st.dom element) T
          · rw [upgradeElementInternal_already hk hp hT hup]
            exact inv_events _ hInv
          · cases hfind : (findRegisteredClass_ T none st.registeredComponents_).1 with
            | none =>
              rw [upgradeElementInternal_unregistered hk hp hT hfind hup]
              exact inv_events _ hInv
            | some cfg =>
              rw [upgradeElementInternal_success hk hp hT hfind hup]
              obtain ⟨hreg, hname⟩ := findRegisteredClass_fst_some hfind
              have hcf := hInv.regCommaFree cfg hreg
              have hcn : cfg.className ≠ "" := by
                intro hempty
                apply hup
                unfold isElementUpgraded_
                rw [← hname, hempty]
                exact hmm
              have := (inv_upgradeOneClass element hInv2 hcf hcn).1
              rw [← hul] at this
              exact this
  · rw [upgradeElementInternal_invalid js hk]
    exact hInv

lemma sameSkel_events (st : Registry) (evs : List Ev) :
    SameSkel st { st with events := evs } :=
  ⟨rfl, rfl, rfl, fun _ => ⟨rfl, rfl, rfl⟩⟩

lemma upgradeElementInternal_skel (st : Registry) (element : Nat) (js : Option String) :
    SameSkel st (upgradeElementInternal st element js).1 := by
  by_cases hk : (st.dom element).kind.isElement
  · cases hp : st.preventUpgrade element with
    | true =>
      rw [upgradeElementInternal_cancel js hk hp]
      exact sameSkel_events st _
    | false =>
      rw [upgradeElementInternal_notPrevented js hk hp]
      simp only []
      exact sameSkel_trans (sameSkel_events st _) (upgradeClassesLoop_skel element _ _ _)
  · rw [upgradeElementInternal_invalid js hk]
    exact sameSkel_refl st

lemma upgradingTargets_snoc (st : Registry) (element : Nat) :
    upgradingTargets { st with events := st.events ++
        [({ eventType := "mdl-componentupgrading", bubbles := true,
            cancelable := true, target := element } : Ev)] }
      = upgradingTargets st ++ [element] := by
  unfold upgradingTargets
  rw [List.filter_append, List.map_append]
  rfl

lemma upgradeElementInternal_targets {st : Registry} {element : Nat}
    (js : Option String) (hk : (st.dom element).kind.isElement) :
    upgradingTargets (upgradeElementInternal st element js).1
      = upgradingTargets st ++ [element] := by
  cases hp : st.preventUpgrade element with
  | true =>
    rw [upgradeElementInternal_cancel js hk hp]
    exact upgradingTargets_snoc st element
  | false =>
    rw [upgradeElementInternal_notPrevented js hk hp]
    simp only []
    rw [upgradeClassesLoop_upgradingTargets]
    exact upgradingTargets_snoc st element

lemma upgradeElementInternal_falsy_err {st : Registry} {element : Nat}
    (js : Option String) (hk : (st.dom element).kind.isElement)
    (hjs : jsFalsyString js) :
    (upgradeElementInternal st element js).2 = none := by
  cases hp : st.preventUpgrade element with
  | true => rw [upgradeElementInternal_cancel js hk hp]
  | false =>
    rw [upgradeElementInternal_scan js hk hp hjs]
    exact upgradeClassesLoop_map_some_err element _ _ _

lemma upgradeElemLoop_inv (js : Option String) :
    ∀ (els : List Nat) (st : Registry), Inv st →
      Inv (upgradeElemLoop st js els).1 := by
  intro els
  induction els with
  | nil => intro st h; exact h
  | cons e rest ih =>
    intro st h
    rw [upgradeElemLoop]
    cases hr : upgradeElementInternal st e js with
    | mk st' err =>
      have hInv' : Inv st' := by
        have := inv_upgradeElementInternal h e js
        rw [hr] at this
        exact this
      cases err with
      | none => exact ih st' hInv'
      | some msg => exact hInv'

lemma upgradeElemLoop_skel (js : Option String) :
    ∀ (els : List Nat) (st : Registry), SameSkel st (upgradeElemLoop st js els).1 := by
  intro els
  induction els with
  | nil => intro st; exact sameSkel_refl st
  | cons e rest ih =>
    intro st
    rw [upgradeElemLoop]
    cases hr : upgradeElementInternal st e js with
    | mk st' err =>
      have hskel : SameSkel st st' := by
        have := upgradeElementInternal_skel st e js
        rw [hr] at this
        exact this
      cases err with
      | none => exact sameSkel_trans hskel (ih st')
      | some msg => exact hskel

lemma upgradeDomInternal_some_eq (st : Registry) (js : Option String) (css : String) :
    upgradeDomInternal st js (some css)
      = upgradeElemLoop st js (querySelectorAllByClass st css) := by
  cases js <;> rfl

lemma upgradeDomInternal_inv {st : Registry} (hInv : Inv st)
    (js css : Option String) : Inv (upgradeDomInternal st js css).1 := by
  cases js with
  | some jsClass =>
    cases css with
    | some c => rw [upgradeDomInternal_some_eq]; exact upgradeElemLoop_inv _ _ _ hInv
    | none =>
      unfold upgradeDomInternal
      exact upgradeElemLoop_inv _ _ _ hInv
  | none =>
    cases css with
    | some c => rw [upgradeDomInternal_some_eq]; exact upgradeElemLoop_inv _ _ _ hInv
    | none =>
      show Inv (upgradeDomLoop st st.registeredComponents_).1
      generalize st.registeredComponents_ = l
      induction l generalizing st with
      | nil => exact hInv
      | cons c cs ih =>
        rw [upgradeDomLoop]
        cases hr : upgradeElemLoop st (some c.className)
            (querySelectorAllByClass st c.cssClass) with
        | mk st' err =>
          have hInv' : Inv st' := by
            have := upgradeElemLoop_inv (some c.className)
              (querySelectorAllByClass st c.cssClass) st hInv
            rw [hr] at this
            exact this
          cases err with
          | none => exact ih hInv'
          | some msg => exact hInv'

lemma preorderGo_nil (st : Registry) (fuel : Nat) : preorderGo st fuel [] = [] := by
  cases fuel <;> rfl

lemma preorderGo_cons_zero (st : Registry) (element : Nat) (rest : List Nat) :
    preorderGo st 0 (element :: rest)
      = (if (st.dom element).kind = NodeKind.html then
          element ::
            (if 0 < (st.dom element).children.length then
              ([] : List Nat)
            else [])
        else []) ++ preorderGo st 0 rest := rfl

lemma preorderGo_cons_succ (st : Registry) (f : Nat) (element : Nat) (rest : List Nat) :
    preorderGo st (f + 1) (element :: rest)
      = (if (st.dom element).kind = NodeKind.html then
          element ::
            (if 0 < (st.dom element).children.length then
              preorderGo st f (st.dom element).children
            else [])
        else []) ++ preorderGo st (f + 1) rest := rfl

lemma preorderGo_congr {st st' : Registry}
    (hd : ∀ i, (st'.dom i).kind = (st.dom i).kind ∧
      (st'.dom i).children = (st.dom i).children) :
    ∀ (fuel : Nat) (l : List Nat), preorderGo st' fuel l = preorderGo st fuel l := by
  intro fuel
  induction fuel with
  | zero =>
    intro l
    induction l with
    | nil => rw [preorderGo_nil, preorderGo_nil]
    | cons e rest ih =>
      rw [preorderGo_cons_zero, preorderGo_cons_zero, (hd e).1, (hd e).2, ih]
  | succ f ihf =>
    intro l
    induction l with
    | nil => rw [preorderGo_nil, preorderGo_nil]
    | cons e rest ih =>
      rw [preorderGo_cons_succ, preorderGo_cons_succ, (hd e).1, (hd e).2, ih,
        ihf (st.dom e).children]

lemma sameSkel_dom {st st' : Registry} (h : SameSkel st st') (i : Nat) :
    (st'.dom i).kind = (st.dom i).kind ∧
      (st'.dom i).classList = (st.dom i).classList ∧
      (st'.dom i).children = (st.dom i).children :=
  h.2.2.2 i

lemma bindExpr_congr (psub : Registry → List Nat → List Nat)
    (Hp : ∀ (s s' : Registry) (cs : List Nat), SameSkel s s' →
      psub s' cs = psub s cs)
    {s s' : Registry} (hsk : SameSkel s s') :
    ∀ l : List Nat,
      l.flatMap (fun element =>
        if (s'.dom element).kind = NodeKind.html then
          element ::
            (if 0 < (s'.dom element).children.length then
              psub s' (s'.dom element).children
            else [])
        else [])
      = l.flatMap (fun element =>
        if (s.dom element).kind = NodeKind.html then
          element ::
            (if 0 < (s.dom element).children.length then
              psub s (s.dom element).children
            else [])
        else []) := by
  intro l
  induction l with
  | nil => rfl
  | cons x rest ih =>
    have hcb : ∀ (f : Nat → List Nat) (y : Nat) (r : List Nat),
        (y :: r).flatMap f = f y ++ r.flatMap f := fun f y r => rfl
    rw [hcb, hcb, ih, (sameSkel_dom hsk x).1, (sameSkel_dom hsk x).2.2,
      Hp s s' _ hsk]

lemma elemsFold_spec (g : Registry → List Nat → Registry × Option String)
    (psub : Registry → List Nat → List Nat)
    (Hg : ∀ s cs, (g s cs).2 = none ∧ SameSkel s (g s cs).1 ∧
      (Inv s → Inv (g s cs).1) ∧
      upgradingTargets (g s cs).1 = upgradingTargets s ++ psub s cs)
    (Hp : ∀ (s s' : Registry) (cs : List Nat), SameSkel s s' →
      psub s' cs = psub s cs) :
    ∀ (l : List Nat) (st : Registry),
      (l.foldl (upgradeElementsStepF g) (st, none)).2 = none ∧
      SameSkel st (l.foldl (upgradeElementsStepF g) (st, none)).1 ∧
      (Inv st → Inv (l.foldl (upgradeElementsStepF g) (st, none)).1) ∧
      upgradingTargets (l.foldl (upgradeElementsStepF g) (st, none)).1
        = upgradingTargets st ++
          l.flatMap (fun element =>
            if (st.dom element).kind = NodeKind.html then
              element ::
                (if 0 < (st.dom element).children.length then
                  psub st (st.dom element).children
                else [])
            else []) := by
  intro l
  induction l with
  | nil =>
    intro st
    exact ⟨rfl, sameSkel_refl st, fun h => h, by simp⟩
  | cons e rest ih =>
    intro st
    rw [List.foldl_cons]
    have hbind : (e :: rest).flatMap (fun element =>
        if (st.dom element).kind = NodeKind.html then
          element ::
            (if 0 < (st.dom element).children.length then
              psub st (st.dom element).children
            else [])
        else [])
      = (if (st.dom e).kind = NodeKind.html then
          e :: (if 0 < (st.dom e).children.length then
            psub st (st.dom e).children else [])
        else []) ++
        rest.flatMap (fun element =>
          if (st.dom element).kind = NodeKind.html then
            element ::
              (if 0 < (st.dom element).children.length then
                psub st (st.dom element).children
              else [])
          else []) := rfl
    by_cases hk : (st.dom e).kind = NodeKind.html
    · cases hup : upgradeElementInternal st e none with
      | mk s1 err =>
        cases err with
        | some msg =>
          exfalso
          have hfe := upgradeElementInternal_falsy_err none
            (show (st.dom e).kind.isElement by rw [hk]; trivial) trivial
          rw [hup] at hfe
          cases hfe
        | none =>
          have hstep : upgradeElementsStepF g (st, none) e
              = if 0 < (s1.dom e).children.length then g s1 (s1.dom e).children
                else (s1, none) := by
            simp [upgradeElementsStepF, hk, hup]
          have hskel1 : SameSkel st s1 := by
            have := upgradeElementInternal_skel st e none
            rw [hup] at this
            exact this
          have hinv1 : Inv st → Inv s1 := fun h => by
            have := inv_upgradeElementInternal h e none
            rw [hup] at this
            exact this
          have htg1 : upgradingTargets s1 = upgradingTargets st ++ [e] := by
            have := upgradeElementInternal_targets none
              (show (st.dom e).kind.isElement by rw [hk]; trivial)
            rw [hup] at this
            exact this
          have hlen1 : (0 < (s1.dom e).children.length)
              = (0 < (st.dom e).children.length) := by
            rw [(sameSkel_dom hskel1 e).2.2]
          by_cases hlen : 0 < (s1.dom e).children.length
          · rw [hstep, if_pos hlen]
            cases hg : g s1 (s1.dom e).children with
            | mk s2 gerr =>
              obtain ⟨hge, hgs, hgi, hgt⟩ := Hg s1 (s1.dom e).children
              rw [hg] at hge hgs hgi hgt
              cases hge
              obtain ⟨hre, hrs, hri, hrt⟩ := ih s2
              have hskel2 : SameSkel st s2 := sameSkel_trans hskel1 hgs
              refine ⟨hre, sameSkel_trans hskel2 hrs,
                fun h => hri (hgi (hinv1 h)), ?_⟩
              rw [hrt, hgt, htg1, hbind]
              rw [if_pos hk, if_pos (by rw [← hlen1]; exact hlen)]
              have hps : psub s1 (s1.dom e).children
                  = psub st (st.dom e).children := by
                rw [(sameSkel_dom hskel1 e).2.2, Hp st s1 _ hskel1]
              have hbr : rest.flatMap (fun element =>
                  if (s2.dom element).kind = NodeKind.html then
                    element ::
                      (if 0 < (s2.dom element).children.length then
                        psub s2 (s2.dom element).children
                      else [])
                  else [])
                = rest.flatMap (fun element =>
                  if (st.dom element).kind = NodeKind.html then
                    element ::
                      (if 0 < (st.dom element).children.length then
                        psub st (st.dom element).children
                      else [])
                  else []) := by
                exact bindExpr_congr psub Hp hskel2 rest
              rw [hbr, hps]
              simp [List.append_assoc]
          · rw [hstep, if_neg hlen]
            obtain ⟨hre, hrs, hri, hrt⟩ := ih s1
            refine ⟨hre, sameSkel_trans hskel1 hrs, fun h => hri (hinv1 h), ?_⟩
            rw [hrt, htg1, hbind]
            rw [if_pos hk, if_neg (by rw [← hlen1]; exact hlen)]
            have hbr : rest.flatMap (fun element =>
                if (s1.dom element).kind = NodeKind.html then
                  element ::
                    (if 0 < (s1.dom element).children.length then
                      psub s1 (s1.dom element).children
                    else [])
                else [])
              = rest.flatMap (fun element =>
                if (st.dom element).kind = NodeKind.html then
                  element ::
                    (if 0 < (st.dom element).children.length then
                      psub st (st.dom element).children
                    else [])
                else []) := by
              exact bindExpr_congr psub Hp hskel1 rest
            rw [hbr]
            simp [List.append_assoc]
    · have hstep : upgradeElementsStepF g (st, none) e = (st, none) := by
        simp [upgradeElementsStepF, hk]
      rw [hstep]
      obtain ⟨hre, hrs, hri, hrt⟩ := ih st
      refine ⟨hre, hrs, hri, ?_⟩
      rw [hrt, hbind, if_neg hk]
      simp


lemma upgradeElementsGo_spec :
    ∀ (fuel : Nat) (st : Registry) (l : List Nat),
      (upgradeElementsGo fuel st l).2 = none ∧
      SameSkel st (upgradeElementsGo fuel st l).1 ∧
      (Inv st → Inv (upgradeElementsGo fuel st l).1) ∧
      upgradingTargets (upgradeElementsGo fuel st l).1
        = upgradingTargets st ++ preorderGo st fuel l := by
  intro fuel
  induction fuel with
  | zero =>
    intro st l
    exact elemsFold_spec (fun s1 _ => (s1, none)) (fun _ _ => ([] : List Nat))
      (fun s cs => ⟨rfl, sameSkel_refl s, fun h => h, by simp⟩)
      (fun s s' cs _ => rfl) l st
  | succ f ihf =>
    intro st l
    exact elemsFold_spec (fun s1 cs => upgradeElementsGo f s1 cs)
      (fun s cs => preorderGo s f cs)
      (fun s cs => (ihf s cs))
      (fun s s' cs hsk => preorderGo_congr
        (fun i => ⟨(sameSkel_dom hsk i).1, (sameSkel_dom hsk i).2.2⟩) f cs)
      l st

lemma upgradeAllLoop_inv :
    ∀ (l : List ComponentConfig) (st : Registry), Inv st →
      Inv (upgradeAllLoop st l).1 := by
  intro l
  induction l with
  | nil => intro st h; exact h
  | cons c cs ih =>
    intro st h
    rw [upgradeAllLoop]
    cases hr : upgradeDomInternal st (some c.className) none with
    | mk st' err =>
      have hInv' : Inv st' := by
        have := upgradeDomInternal_inv h (some c.className) none
        rw [hr] at this
        exact this
      cases err with
      | none => exact ih st' hInv'
      | some msg => exact hInv'

lemma eraseIdx_length_sub_one : ∀ (l : List String),
    l.eraseIdx (l.length - 1) = l.dropLast := by
  intro l
  induction l with
  | nil => rfl
  | cons a t ih =>
    cases t with
    | nil => rfl
    | cons b t' =>
      show (a :: b :: t').eraseIdx (t'.length + 1) = a :: (b :: t').dropLast
      rw [List.eraseIdx_cons_succ]
      have : (b :: t').length - 1 = t'.length := rfl
      rw [← this, ih]

lemma dropLast_cons_of_ne_nil {α : Type} {a : α} {l : List α} (h : l ≠ []) :
    (a :: l).dropLast = a :: l.dropLast := by
  cases l with
  | nil => exact absurd rfl h
  | cons b t => rfl

lemma removeFirst_cons_self (c : Component) (xs : List Component) :
    removeFirstComponent (c :: xs) c = xs := by
  unfold removeFirstComponent
  rw [List.findIdx?_cons]
  simp

lemma removeFirst_cons_ne {x c : Component} {xs : List Component}
    (h : x ≠ c) (hc : c ∈ xs) :
    removeFirstComponent (x :: xs) c = x :: removeFirstComponent xs c := by
  unfold removeFirstComponent
  rw [List.findIdx?_cons, List.findIdx?_succ]
  rw [if_neg (by simp [h])]
  cases hfi : xs.findIdx? (fun y => decide (y = c)) with
  | none =>
    exfalso
    rw [List.findIdx?_eq_none_iff] at hfi
    simpa using hfi c hc
  | some j => simp [List.eraseIdx_cons_succ]

lemma removeFirst_filter_head {p : Component → Bool} :
    ∀ {l : List Component} {c : Component} {cs : List Component},
      l.filter p = c :: cs → (removeFirstComponent l c).filter p = cs := by
  intro l
  induction l with
  | nil => intro c cs h; simp at h
  | cons x xs ih =>
    intro c cs h
    have hpc : p c = true := List.of_mem_filter
      (show c ∈ (x :: xs).filter p by rw [h]; exact List.mem_cons_self _ _)
    by_cases hx : x = c
    · subst hx
      rw [removeFirst_cons_self]
      rw [List.filter_cons, if_pos hpc] at h
      exact (List.cons.injEq _ _ _ _ ▸ h).2
    · have hcm : c ∈ xs := by
        have : c ∈ (x :: xs).filter p := by
          rw [h]; exact List.mem_cons_self _ _
        rcases List.mem_cons.mp (List.mem_of_mem_filter this) with hcx | hxs
        · exact absurd hcx.symm hx
        · exact hxs
      rw [removeFirst_cons_ne hx hcm]
      rw [List.filter_cons] at h ⊢
      by_cases hp : p x = true
      · rw [if_pos hp] at h
        injection h with h1 h2
        exact absurd h1 hx
      · rw [if_neg hp] at h ⊢
        exact ih h

lemma removeFirst_filter_other {p : Component → Bool} {c : Component}
    (hpc : p c = false) :
    ∀ {l : List Component}, c ∈ l →
      (removeFirstComponent l c).filter p = l.filter p := by
  intro l
  induction l with
  | nil => intro h; cases h
  | cons x xs ih =>
    intro hc
    by_cases hx : x = c
    · subst hx
      rw [removeFirst_cons_self, List.filter_cons, if_neg (by simp [hpc])]
    · have hcm : c ∈ xs := by
        rcases List.mem_cons.mp hc with hcx | hxs
        · exact absurd hcx.symm hx
        · exact hxs
      rw [removeFirst_cons_ne hx hcm, List.filter_cons, List.filter_cons]
      by_cases hp : p x = true
      · rw [if_pos hp, if_pos hp, ih hcm]
      · rw [if_neg hp, if_neg hp, ih hcm]

lemma removeFirst_sublist (l : List Component) (c : Component) :
    (removeFirstComponent l c).Sublist l := by
  unfold removeFirstComponent
  cases l.findIdx? (fun y => decide (y = c)) with
  | none => exact List.dropLast_sublist l
  | some i => exact List.eraseIdx_sublist l i

lemma deconstructComponentInternal_spec {st : Registry} {c : Component}
    {cfg : ComponentConfig} {node : Nat} {pre : List String}
    (hcfg : c.configField = some cfg)
    (helem : c.element_ = node)
    (hattr : (st.dom node).dataUpgraded = some (jsJoinComma ("" :: pre)))
    (hpre : ∀ s ∈ pre, ',' ∉ s.data)
    (hne : pre ≠ []) :
    deconstructComponentInternal st c
      = ({ st with
            createdComponents_ := removeFirstComponent st.createdComponents_ c,
            dom := fun j => if j = node then
                { st.dom j with
                  dataUpgraded := some (jsJoinComma ("" :: pre.dropLast)) }
              else st.dom j,
            events := st.events ++
              [({ eventType := "mdl-componentdowngraded", bubbles := true,
                  cancelable := false, target := node } : Ev)] }, none) := by
  have hsplit : jsSplitComma (jsJoinComma ("" :: pre)) = "" :: pre :=
    jsSplitComma_jsJoinComma (by simp) (by
      intro s hs
      rcases List.mem_cons.mp hs with rfl | hm
      · simp
      · exact hpre s hm)
  have hspl : spliceOne ("" :: pre) (jsIndexOf ("" :: pre) none)
      = "" :: pre.dropLast := by
    show spliceOne ("" :: pre) (-1) = "" :: pre.dropLast
    unfold spliceOne
    simp only [if_pos (by norm_num : (-1 : Int) < 0)]
    have h1 : (-1 : Int).natAbs = 1 := rfl
    rw [h1]
    rw [show ("" :: pre).length - 1 = ("" :: pre).length - 1 from rfl]
    rw [eraseIdx_length_sub_one, dropLast_cons_of_ne_nil hne]
  unfold deconstructComponentInternal
  rw [helem]
  simp only [hattr, hcfg]
  rw [hsplit, hspl]
  simp [setDataUpgraded, dispatchEvent, helem]

lemma downgradeList_aux :
    ∀ (toGo : List Component) (st : Registry) (pre : List String) (node : Nat),
      st.createdComponents_.filter (fun c => c.element_ == node) = toGo →
      (st.dom node).dataUpgraded = some (jsJoinComma ("" :: pre)) →
      pre.length = toGo.length →
      (∀ s ∈ pre, ',' ∉ s.data) →
      (∀ c ∈ st.createdComponents_, c.configField.isSome) →
      (downgradeList st toGo).2 = none ∧
      (downgradeList st toGo).1.createdComponents_
        = st.createdComponents_.filter (fun c => !(c.element_ == node)) ∧
      (∀ j, j ≠ node → (downgradeList st toGo).1.dom j = st.dom j) ∧
      ((downgradeList st toGo).1.dom node).dataUpgraded
        = (if toGo = [] then (st.dom node).dataUpgraded else some "") ∧
      ((downgradeList st toGo).1.dom node).kind = (st.dom node).kind ∧
      ((downgradeList st toGo).1.dom node).classList = (st.dom node).classList ∧
      ((downgradeList st toGo).1.dom node).children = (st.dom node).children ∧
      ((downgradeList st toGo).1.dom node).props = (st.dom node).props ∧
      (downgradeList st toGo).1.registeredComponents_ = st.registeredComponents_ ∧
      (downgradeList st toGo).1.docOrder = st.docOrder ∧
      (downgradeList st toGo).1.preventUpgrade = st.preventUpgrade ∧
      (downgradeList st toGo).1.nextComponentId = st.nextComponentId ∧
      (downgradeList st toGo).1.callbackLog = st.callbackLog := by
  intro toGo
  induction toGo with
  | nil =>
    intro st pre node h1 h2 h3 h4 h5
    have hfe : st.createdComponents_.filter (fun c => !(c.element_ == node))
        = st.createdComponents_ := by
      rw [List.filter_eq_self]
      intro a ha
      by_contra hcon
      have : a ∈ st.createdComponents_.filter (fun c => c.element_ == node) := by
        apply List.mem_filter.mpr ⟨ha, by simpa using hcon⟩
      rw [h1] at this
      cases this
    exact ⟨rfl, hfe.symm, fun j _ => rfl, by simp [downgradeList], rfl, rfl, rfl,
      rfl, rfl, rfl, rfl, rfl, rfl⟩
  | cons c cs ih =>
    intro st pre node h1 h2 h3 h4 h5
    have hcmemf : c ∈ st.createdComponents_.filter (fun x => x.element_ == node) := by
      rw [h1]; exact List.mem_cons_self _ _
    have hcmem : c ∈ st.createdComponents_ := List.mem_of_mem_filter hcmemf
    have hcel := List.of_mem_filter hcmemf
    have helem : c.element_ = node := by simpa using hcel
    obtain ⟨cfg, hcfg⟩ := Option.isSome_iff_exists.mp (h5 c hcmem)
    have hpne : pre ≠ [] := by
      intro hp
      rw [hp] at h3
      simp at h3
    have hdec := deconstructComponentInternal_spec hcfg helem h2 h4 hpne
    rw [downgradeList, hdec]
    have hfilter1 : (removeFirstComponent st.createdComponents_ c).filter
        (fun c => c.element_ == node) = cs :=
      removeFirst_filter_head h1
    have hfilterOther : (removeFirstComponent st.createdComponents_ c).filter
        (fun c => !(c.element_ == node))
        = st.createdComponents_.filter (fun c => !(c.element_ == node)) :=
      removeFirst_filter_other (by simp [hcel]) hcmem
    have hsub := removeFirst_sublist st.createdComponents_ c
    have h3' : pre.dropLast.length = cs.length := by
      rw [List.length_dropLast, h3]
      rfl
    have h4' : ∀ s ∈ pre.dropLast, ',' ∉ s.data :=
      fun s hs => h4 s (List.dropLast_subset _ hs)
    have h5' : ∀ x ∈ removeFirstComponent st.createdComponents_ c,
        x.configField.isSome :=
      fun x hx => h5 x (hsub.subset hx)
    have hih := ih ({ st with
        createdComponents_ := removeFirstComponent st.createdComponents_ c,
        dom := fun j => if j = node then
            { st.dom j with
              dataUpgraded := some (jsJoinComma ("" :: pre.dropLast)) }
          else st.dom j,
        events := st.events ++
          [({ eventType := "mdl-componentdowngraded", bubbles := true,
              cancelable := false, target := node } : Ev)] } : Registry)
      pre.dropLast node hfilter1 (by simp) h3' h4' h5'
    obtain ⟨g1, g2, g3, g4, g5, g6, g7, g8, g9, g10, g11, g12, g13⟩ := hih
    refine ⟨g1, by rw [g2]; simpa using hfilterOther, ?_, ?_, ?_, ?_, ?_, ?_,
      g9, g10, g11, g12, g13⟩
    · intro j hj
      rw [g3 j hj]
      simp [hj]
    · rw [g4]
      by_cases hcs : cs = []
      · rw [if_pos hcs, if_neg (by simp)]
        have : pre.dropLast = [] := List.length_eq_zero.mp (by rw [h3', hcs]; rfl)
        simp [this, jsJoinComma_single]
      · rw [if_neg hcs, if_neg (by simp)]
    · rw [g5]; simp
    · rw [g6]; simp
    · rw [g7]; simp
    · rw [g8]; simp

lemma filter_not_eq_self {l : List Component} {node : Nat}
    (h : l.filter (fun c => c.element_ == node) = []) :
    l.filter (fun c => !(c.element_ == node)) = l := by
  rw [List.filter_eq_self]
  intro a ha
  by_contra hcon
  have : a ∈ l.filter (fun c => c.element_ == node) :=
    List.mem_filter.mpr ⟨ha, by simpa using hcon⟩
  rw [h] at this
  cases this

lemma downgradeNode_spec {st : Registry} (hInv : Inv st) (node : Nat) :
    (downgradeNode st node).2 = none ∧
    Inv (downgradeNode st node).1 ∧
    (downgradeNode st node).1.createdComponents_
      = st.createdComponents_.filter (fun c => !(c.element_ == node)) ∧
    (∀ j, j ≠ node → (downgradeNode st node).1.dom j = st.dom j) ∧
    (st.createdComponents_.filter (fun c => c.element_ == node) ≠ [] →
      ((downgradeNode st node).1.dom node).dataUpgraded = some "") ∧
    (st.createdComponents_.filter (fun c => c.element_ == node) = [] →
      (downgradeNode st node).1 = st) ∧
    (downgradeNode st node).1.registeredComponents_ = st.registeredComponents_ ∧
    (∀ j, ((downgradeNode st node).1.dom j).kind = (st.dom j).kind) := by
  by_cases htg : st.createdComponents_.filter (fun c => c.element_ == node) = []
  · have hred : downgradeNode st node = (st, none) := by
      unfold downgradeNode
      rw [htg]
      rfl
    rw [hred]
    exact ⟨rfl, hInv, (filter_not_eq_self htg).symm, fun j _ => rfl,
      fun hcon => absurd htg hcon, fun _ => rfl, rfl, fun j => rfl⟩
  · have hattr : (st.dom node).dataUpgraded
        = some (jsJoinComma ("" :: typesOn st node)) := by
      rcases hInv.sync node with ⟨hn, ht⟩ | hs
      · exfalso
        apply htg
        have : (st.createdComponents_.filter
            (fun c => c.element_ == node)).map typeOfComponent = [] := ht
        exact List.map_eq_nil_iff.mp this
      · exact hs
    have haux := downgradeList_aux
      (st.createdComponents_.filter (fun c => c.element_ == node)) st
      (typesOn st node) node rfl hattr (by rw [typesOn]; simp)
      (typesOn_commaFree hInv)
      (fun c hc => by
        obtain ⟨cfg, hcfg, _, _⟩ := hInv.compsOk c hc
        simp [hcfg])
    obtain ⟨g1, g2, g3, g4, g5, g6, g7, g8, g9, g10, g11, g12, g13⟩ := haux
    have hdn : downgradeNode st node = downgradeList st
        (st.createdComponents_.filter (fun c => c.element_ == node)) := rfl
    rw [hdn]
    have hattr' : ((downgradeList st (st.createdComponents_.filter
        (fun c => c.element_ == node))).1.dom node).dataUpgraded = some "" := by
      rw [g4, if_neg htg]
    refine ⟨g1, ?_, g2, g3, fun _ => hattr', fun hcon => absurd hcon htg, g9, ?kind⟩
    case kind =>
      intro j
      by_cases hj : j = node
      · rw [hj]; exact g5
      · rw [g3 j hj]
    refine ⟨?_, ?_, ?_, ?_, ?_, ?_⟩
    · rw [g9]; exact hInv.nodupNames
    · rw [g9]; exact hInv.regCommaFree
    · rw [g2]
      intro c hc
      exact hInv.compsOk c (List.mem_of_mem_filter hc)
    · rw [g2]
      exact hInv.idsNodup.sublist
        ((List.filter_sublist st.createdComponents_).map Component.id)
    · rw [g2, g12]
      intro c hc
      exact hInv.idsLt c (List.mem_of_mem_filter hc)
    · intro e
      by_cases he : e = node
      · subst he
        right
        rw [hattr']
        have htyp : typesOn (downgradeList st (st.createdComponents_.filter
            (fun c => c.element_ == e))).1 e = [] := by
          unfold typesOn
          rw [g2, List.filter_filter]
          rw [List.filter_eq_nil_iff.mpr (by intro a ha; simp)]
          rfl
        rw [htyp]
        rfl
      · have hdome := g3 e he
        have htyp : typesOn (downgradeList st (st.createdComponents_.filter
            (fun c => c.element_ == node))).1 e = typesOn st e := by
          unfold typesOn
          rw [g2, List.filter_filter]
          congr 1
          apply List.filter_congr
          intro a _
          by_cases hae : a.element_ = e
          · simp [hae, he]
          · simp [hae]
        rcases hInv.sync e with ⟨hn, ht⟩ | hs
        · exact Or.inl ⟨by rw [hdome]; exact hn, by rw [htyp]; exact ht⟩
        · exact Or.inr (by rw [hdome, htyp]; exact hs)

lemma inv_downgradeNodes {st : Registry} (hInv : Inv st) (nodes : NodesArg) :
    Inv (downgradeNodesInternal st nodes).1 := by
  cases nodes with
  | invalid => exact hInv
  | single n =>
    show Inv ((if (st.dom n).kind.isNode then downgradeNode st n
      else (st, some "Invalid argument provided to downgrade MDL nodes.")).1)
    by_cases hn : (st.dom n).kind.isNode
    · rw [if_pos hn]
      exact (downgradeNode_spec hInv n).2.1
    · rw [if_neg hn]
      exact hInv
  | many ns =>
    show Inv (downgradeNodesLoop st ns).1
    induction ns generalizing st with
    | nil => exact hInv
    | cons n rest ih =>
      rw [downgradeNodesLoop]
      cases hr : downgradeNode st n with
      | mk st' err =>
        have hInv' : Inv st' := by
          have := (downgradeNode_spec hInv n).2.1
          rw [hr] at this
          exact this
        cases err with
        | none => exact ih hInv'
        | some msg => exact hInv'

lemma replaceRegistered_names {name : String} {r : ComponentConfig}
    (hr : r.className = name) :
    ∀ (l : List ComponentConfig),
      ((findRegisteredClass_ name (some r) l).2.map ComponentConfig.className)
        = l.map ComponentConfig.className := by
  intro l
  induction l with
  | nil => rfl
  | cons c cs ih =>
    unfold findRegisteredClass_
    by_cases hc : c.className = name
    · simp [hc, hr]
    · simp [hc, ih]

lemma replaceRegistered_mem {name : String} {r : ComponentConfig} :
    ∀ {l : List ComponentConfig} {c : ComponentConfig},
      c ∈ (findRegisteredClass_ name (some r) l).2 → c = r ∨ c ∈ l := by
  intro l
  induction l with
  | nil => intro c hc; exact Or.inr hc
  | cons d ds ih =>
    intro c hc
    unfold findRegisteredClass_ at hc
    by_cases hd : d.className = name
    · simp [hd] at hc
      rcases hc with rfl | hm
      · exact Or.inl rfl
      · exact Or.inr (List.mem_cons_of_mem _ hm)
    · simp [hd] at hc
      rcases hc with rfl | hm
      · exact Or.inr (List.mem_cons_self _ _)
      · rcases ih hm with h | h
        · exact Or.inl h
        · exact Or.inr (List.mem_cons_of_mem _ h)

lemma inv_registerInternal {st : Registry} {config : ComponentConfigPublic}
    (hInv : Inv st) (hcf : ',' ∉ config.classAsString.data) :
    Inv (registerInternal st config).1 := by
  unfold registerInternal
  by_cases hproto : config.protoHasConfigProperty
  · simp only [hproto, if_true]
    exact hInv
  · simp only [hproto, Bool.false_eq_true, if_false]
    cases hfind : (findRegisteredClass_ config.classAsString
        (some (newConfigOf config)) st.registeredComponents_).1 with
    | some c =>
      refine ⟨?_, ?_, hInv.compsOk, hInv.idsNodup, hInv.idsLt, hInv.sync⟩
      · show ((findRegisteredClass_ config.classAsString
            (some (newConfigOf config)) st.registeredComponents_).2.map
            ComponentConfig.className).Nodup
        rw [replaceRegistered_names
          (show (newConfigOf config).className = config.classAsString from rfl)]
        exact hInv.nodupNames
      · intro cfg hcfg
        rcases replaceRegistered_mem hcfg with rfl | hm
        · exact hcf
        · exact hInv.regCommaFree cfg hm
    | none =>
      refine ⟨?_, ?_, hInv.compsOk, hInv.idsNodup, hInv.idsLt, hInv.sync⟩
      · show ((st.registeredComponents_ ++ [newConfigOf config]).map
            ComponentConfig.className).Nodup
        rw [List.map_append, List.nodup_append]
        refine ⟨hInv.nodupNames, by simp, ?_⟩
        intro a ha hb
        rw [findRegisteredClass_fst_none_iff] at hfind
        obtain ⟨cc, hcc, rfl⟩ := List.mem_map.mp ha
        simp only [List.map_cons, List.map_nil, List.mem_singleton] at hb
        exact hfind cc hcc hb
      · intro cfg hcfg
        rcases List.mem_append.mp hcfg with hm | hm
        · exact hInv.regCommaFree cfg hm
        · simp only [List.mem_singleton] at hm
          rcases hm with rfl
          exact hcf

lemma appendCallback_names (name : String) (cb : Nat) :
    ∀ (l : List ComponentConfig),
      ((appendCallbackToFirst name cb l).map ComponentConfig.className)
        = l.map ComponentConfig.className := by
  intro l
  induction l with
  | nil => rfl
  | cons c cs ih =>
    unfold appendCallbackToFirst
    by_cases hc : c.className = name
    · simp [hc]
    · simp [hc, ih]

lemma appendCallback_mem {name : String} {cb : Nat} :
    ∀ {l : List ComponentConfig} {c : ComponentConfig},
      c ∈ appendCallbackToFirst name cb l →
      ∃ c₀ ∈ l, c.className = c₀.className := by
  intro l
  induction l with
  | nil => intro c hc; cases hc
  | cons d ds ih =>
    intro c hc
    unfold appendCallbackToFirst at hc
    by_cases hd : d.className = name
    · simp [hd] at hc
      rcases hc with rfl | hm
      · exact ⟨d, List.mem_cons_self _ _, by simp [hd]⟩
      · exact ⟨c, List.mem_cons_of_mem _ hm, rfl⟩
    · simp [hd] at hc
      rcases hc with rfl | hm
      · exact ⟨c, List.mem_cons_self _ _, rfl⟩
      · obtain ⟨c₀, hc₀, he⟩ := ih hm
        exact ⟨c₀, List.mem_cons_of_mem _ hc₀, he⟩

lemma inv_registerUpgradedCallback {st : Registry} (hInv : Inv st)
    (jsClass : String) (callback : Nat) :
    Inv (registerUpgradedCallbackInternal st jsClass callback) := by
  unfold registerUpgradedCallbackInternal
  cases (findRegisteredClass_ jsClass none st.registeredComponents_).1 with
  | none => exact hInv
  | some c =>
    refine ⟨?_, ?_, hInv.compsOk, hInv.idsNodup, hInv.idsLt, hInv.sync⟩
    · rw [appendCallback_names]
      exact hInv.nodupNames
    · intro cfg hcfg
      obtain ⟨c₀, hc₀, he⟩ := appendCallback_mem hcfg
      rw [he]
      exact hInv.regCommaFree c₀ hc₀

lemma inv_init (dom0 : Nat → Elem) (docOrder : List Nat) (prevent : Nat → Bool)
    (h : ∀ i, (dom0 i).dataUpgraded = none) :
    Inv { registeredComponents_ := [], createdComponents_ := [],
          dom := dom0, docOrder := docOrder, preventUpgrade := prevent,
          events := [], callbackLog := [], nextComponentId := 0 } := by
  refine ⟨by simp, by simp, by simp, by simp, by simp, ?_⟩
  intro e
  exact Or.inl ⟨h e, rfl⟩

/-- Every reachable state satisfies the registry invariant. -/
lemma reachable_inv {st : Registry} (h : Reachable st) : Inv st := by
  induction h with
  | init dom0 docOrder prevent h0 => exact inv_init dom0 docOrder prevent h0
  | step hr hs ih =>
    cases hs with
    | register config hname => exact inv_registerInternal ih hname
    | registerUpgradedCallback jsClass callback =>
      exact inv_registerUpgradedCallback ih jsClass callback
    | upgradeDom a b => exact upgradeDomInternal_inv ih a b
    | upgradeElement element js => exact inv_upgradeElementInternal ih element js
    | upgradeElements fuel elements =>
      exact (upgradeElementsGo_spec fuel _ (normalizeElementsArg _ elements)).2.2.1 ih
    | upgradeAllRegistered => exact upgradeAllLoop_inv _ _ ih
    | downgradeElements nodes => exact inv_downgradeNodes ih nodes

lemma filter_filter_other {l : List Component} {node m : Nat} (h : m ≠ node) :
    (l.filter (fun c => !(c.element_ == node))).filter (fun c => c.element_ == m)
      = l.filter (fun c => c.element_ == m) := by
  rw [List.filter_filter]
  apply List.filter_congr
  intro a _
  by_cases ha : a.element_ = m
  · simp [ha, h]
  · simp [ha]

lemma downgradeNode_noop {st : Registry} (hInv : Inv st) {node : Nat}
    (h : st.createdComponents_.filter (fun c => c.element_ == node) = []) :
    downgradeNode st node = (st, none) := by
  have hs := downgradeNode_spec hInv node
  have h1 := hs.2.2.2.2.2.1 h
  have h2 := hs.1
  cases hd : downgradeNode st node with
  | mk a b =>
    rw [hd] at h1 h2
    simp at h1 h2
    rw [h1, h2]

lemma comp_attr_isSome {st : Registry} (hInv : Inv st) {c : Component}
    (hc : c ∈ st.createdComponents_) :
    ((st.dom c.element_).dataUpgraded).isSome := by
  rcases hInv.sync c.element_ with ⟨hn, ht⟩ | hs
  · exfalso
    have hmem : c ∈ st.createdComponents_.filter
        (fun x => x.element_ == c.element_) :=
      List.mem_filter.mpr ⟨hc, by simp⟩
    have : typesOn st c.element_ ≠ [] := by
      unfold typesOn
      intro hcon
      rw [List.map_eq_nil_iff] at hcon
      rw [hcon] at hmem
      cases hmem
    exact this ht
  · rw [hs]
    rfl

lemma deconstruct_err_none {st : Registry} (hInv : Inv st) {c : Component}
    (hc : c ∈ st.createdComponents_) :
    (deconstructComponentInternal st c).2 = none := by
  obtain ⟨cfg, hcfg, _, _⟩ := hInv.compsOk c hc
  obtain ⟨s, hs⟩ := Option.isSome_iff_exists.mp (comp_attr_isSome hInv hc)
  unfold deconstructComponentInternal
  simp only [hs, hcfg]

lemma downgradeNodesLoop_spec :
    ∀ (ns : List Nat) (st : Registry), Inv st →
      (downgradeNodesLoop st ns).2 = none ∧
      Inv (downgradeNodesLoop st ns).1 ∧
      (∀ c ∈ (downgradeNodesLoop st ns).1.createdComponents_,
        c ∈ st.createdComponents_) ∧
      (∀ node ∈ ns, ∀ c ∈ (downgradeNodesLoop st ns).1.createdComponents_,
        c.element_ ≠ node) ∧
      (∀ node ∈ ns, st.createdComponents_.filter
          (fun c => c.element_ == node) ≠ [] →
        ((downgradeNodesLoop st ns).1.dom node).dataUpgraded = some "") ∧
      (∀ j, ((downgradeNodesLoop st ns).1.dom j).dataUpgraded
          = (st.dom j).dataUpgraded ∨
        ((downgradeNodesLoop st ns).1.dom j).dataUpgraded = some "") ∧
      ((∀ node ∈ ns, st.createdComponents_.filter
          (fun c => c.element_ == node) = []) →
        (downgradeNodesLoop st ns).1 = st) ∧
      (∀ j, ((downgradeNodesLoop st ns).1.dom j).kind = (st.dom j).kind) := by
  intro ns
  induction ns with
  | nil =>
    intro st hInv
    exact ⟨rfl, hInv, fun c hc => hc, fun node hn => absurd hn (by simp),
      fun node hn => absurd hn (by simp), fun j => Or.inl rfl, fun _ => rfl,
      fun j => rfl⟩
  | cons node rest ih =>
    intro st hInv
    obtain ⟨s1, s2, s3, s4, s5, s6, s7, s8⟩ := downgradeNode_spec hInv node
    rw [downgradeNodesLoop]
    cases hd : downgradeNode st node with
    | mk st1 err =>
      rw [hd] at s1 s2 s3 s4 s5 s6 s7 s8
      simp only at s1 s2 s3 s4 s5 s6 s7 s8
      cases s1
      obtain ⟨r1, r2, r3, r4, r5, r6, r7, r8⟩ := ih st1 s2
      have hsub1 : ∀ c ∈ st1.createdComponents_, c ∈ st.createdComponents_ := by
        intro c hc
        rw [s3] at hc
        exact List.mem_of_mem_filter hc
      refine ⟨r1, r2, fun c hc => hsub1 c (r3 c hc), ?_, ?_, ?_, ?_, ?_⟩
      · intro m hm c hc
        rcases List.mem_cons.mp hm with rfl | hmr
        · have := r3 c hc
          rw [s3] at this
          have := List.of_mem_filter this
          simpa using this
        · exact r4 m hmr c hc
      · intro m hm hne
        rcases List.mem_cons.mp hm with rfl | hmr
        · have hattr1 : (st1.dom m).dataUpgraded = some "" := s5 hne
          rcases r6 m with hu | hu
          · rw [hu, hattr1]
          · exact hu
        · by_cases hmn : m = node
          · subst hmn
            have hattr1 : (st1.dom m).dataUpgraded = some "" := s5 hne
            rcases r6 m with hu | hu
            · rw [hu, hattr1]
            · exact hu
          · have hfe : st1.createdComponents_.filter
                (fun c => c.element_ == m) ≠ [] := by
              rw [s3, filter_filter_other hmn]
              exact hne
            exact r5 m hmr hfe
      · intro j
        rcases r6 j with hu | hu
        · rw [hu]
          by_cases hj : j = node
          · subst hj
            by_cases hne : st.createdComponents_.filter
                (fun c => c.element_ == j) = []
            · rw [s6 hne]
              exact Or.inl rfl
            · exact Or.inr (s5 hne)
          · rw [s4 j hj]
            exact Or.inl rfl
        · exact Or.inr hu
      · intro hall
        have hne := hall node (List.mem_cons_self _ _)
        have hst1 : st1 = st := s6 hne
        subst hst1
        exact r7 (fun m hm => hall m (List.mem_cons_of_mem _ hm))
      · intro j
        rw [r8 j, s8 j]

lemma upgradeDomLoop_eq_upgradeAllLoop :
    ∀ (l : List ComponentConfig) (st : Registry),
      (∀ c ∈ l, (findRegisteredClass_ c.className none
        st.registeredComponents_).1 = some c) →
      upgradeDomLoop st l = upgradeAllLoop st l := by
  intro l
  induction l with
  | nil => intro st h; rfl
  | cons c cs ih =>
    intro st h
    have hc := h c (List.mem_cons_self _ _)
    have hstep : upgradeDomInternal st (some c.className) none
        = upgradeElemLoop st (some c.className)
            (querySelectorAllByClass st c.cssClass) := by
      unfold upgradeDomInternal
      simp only [hc]
    rw [upgradeDomLoop, upgradeAllLoop, hstep]
    cases hr : upgradeElemLoop st (some c.className)
        (querySelectorAllByClass st c.cssClass) with
    | mk st' err =>
      cases err with
      | some msg => rfl
      | none =>
        apply ih st'
        intro d hd
        have hreg : st'.registeredComponents_ = st.registeredComponents_ := by
          have := upgradeElemLoop_skel (some c.className)
            (querySelectorAllByClass st c.cssClass) st
          rw [hr] at this
          exact this.1
        rw [hreg]
        exact h d (List.mem_cons_of_mem _ hd)

lemma findRegisteredClass_findIdx?_none {name : String}
    {l : List ComponentConfig}
    (h : ∀ c ∈ l, c.className ≠ name) :
    l.findIdx? (fun c => decide (c.className = name)) = none := by
  induction l with
  | nil => rfl
  | cons c cs ih =>
    rw [List.findIdx?_cons]
    simp [h c (List.mem_cons_self _ _), ih (fun x hx => h x (List.mem_cons_of_mem _ hx))]

lemma reachable_stInit : Reachable stInit := by
  apply Reachable.init domW [0, 1] preventW
  intro i
  unfold domW
  by_cases h0 : i = 0
  · simp [h0, elemW]
  · by_cases h1 : i = 1 <;> simp [h0, h1, elemPlain, elemNone]

lemma reachable_stReg : Reachable stReg :=
  Reachable.step reachable_stInit (Step.register stInit cfgWidget (by decide))

lemma reachable_stUp : Reachable stUp :=
  Reachable.step reachable_stReg (Step.upgradeElement stReg 0 (some "Widget"))

lemma getUpgradedList_eq_of_some {e : Elem} {s : String}
    (h : e.dataUpgraded = some s) :
    getUpgradedListOfElement_ e = jsSplitComma s := by
  unfold getUpgradedListOfElement_
  rw [h]

/-! ### The claims -/

/-- C5: for every element, if a listener cancels the pre-upgrade
`mdl-componentupgrading` notification, `upgradeElementInternal` aborts the
whole upgrade of that element with no further effect and no error: the only
change to the state is the recorded pre-upgrade event itself, so the
`data-upgraded` attribute is untouched, no instance is created or recorded,
no callback is invoked, and no `mdl-componentupgraded` notification is
dispatched. -/
theorem C5_cancel_aborts_upgrade (st : Registry) (element : Nat)
    (optJsClass : Option String)
    (hk : (st.dom element).kind.isElement)
    (hp : st.preventUpgrade element = true) :
    upgradeElementInternal st element optJsClass
      = ({ st with events := st.events ++
          [({ eventType := "mdl-componentupgrading", bubbles := true,
              cancelable := true, target := element } : Ev)] }, none) ∧
    (upgradeElementInternal st element optJsClass).1.dom = st.dom ∧
    (upgradeElementInternal st element optJsClass).1.createdComponents_
      = st.createdComponents_ ∧
    (upgradeElementInternal st element optJsClass).1.callbackLog
      = st.callbackLog ∧
    (upgradeElementInternal st element optJsClass).2 = none := by
  have h := upgradeElementInternal_cancel optJsClass hk hp
  rw [h]
  exact ⟨rfl, rfl, rfl, rfl, rfl⟩

/-- Witness for C5: in the example state, node `1` has a cancelling listener;
upgrading it only records the pre-upgrade event. -/
theorem C5_cancel_aborts_upgrade_witness :
    (stReg.dom 1).kind.isElement ∧ stReg.preventUpgrade 1 = true ∧
    ((upgradeElementInternal stReg 1 none)
        = ({ stReg with events := stReg.events ++
            [({ eventType := "mdl-componentupgrading", bubbles := true,
                cancelable := true, target := 1 } : Ev)] }, none) ∧
      (upgradeElementInternal stReg 1 none).1.dom = stReg.dom ∧
      (upgradeElementInternal stReg 1 none).1.createdComponents_
        = stReg.createdComponents_ ∧
      (upgradeElementInternal stReg 1 none).1.callbackLog = stReg.callbackLog ∧
      (upgradeElementInternal stReg 1 none).2 = none) :=
  ⟨by decide, by decide,
    C5_cancel_aborts_upgrade stReg 1 none (by decide) (by decide)⟩

/-- C6: upgrading an element for a type name with no registered descriptor
(and for which the element is not already marked upgraded) throws the fatal
`Unable to find a registered component for the given class.` error, and the
state is unchanged except for the recorded pre-upgrade event: in particular
the `data-upgraded` attribute and the created-components collection are
untouched. -/
theorem C6_unregistered_type_fatal (st : Registry) (element : Nat) (T : String)
    (hk : (st.dom element).kind.isElement)
    (hp : st.preventUpgrade element = false)
    (hT : T ≠ "")
    (hfind : (findRegisteredClass_ T none st.registeredComponents_).1 = none)
    (hup : ¬ isElementUpgraded_ (st.dom element) T) :
    upgradeElementInternal st element (some T)
      = ({ st with events := st.events ++
          [({ eventType := "mdl-componentupgrading", bubbles := true,
              cancelable := true, target := element } : Ev)] },
         some "Unable to find a registered component for the given class.") ∧
    (upgradeElementInternal st element (some T)).1.dom = st.dom ∧
    (upgradeElementInternal st element (some T)).1.createdComponents_
      = st.createdComponents_ := by
  have h := upgradeElementInternal_unregistered hk hp hT hfind hup
  rw [h]
  exact ⟨rfl, rfl, rfl⟩

/-- Witness for C6: upgrading node `0` for the unregistered type `"Nope"`
throws and leaves the attribute and instance collection unchanged. -/
theorem C6_unregistered_type_fatal_witness :
    (stReg.dom 0).kind.isElement ∧ stReg.preventUpgrade 0 = false ∧
    ("Nope" : String) ≠ "" ∧
    (findRegisteredClass_ "Nope" none stReg.registeredComponents_).1 = none ∧
    ¬ isElementUpgraded_ (stReg.dom 0) "Nope" ∧
    (upgradeElementInternal stReg 0 (some "Nope")
        = ({ stReg with events := stReg.events ++
            [({ eventType := "mdl-componentupgrading", bubbles := true,
                cancelable := true, target := 0 } : Ev)] },
           some "Unable to find a registered component for the given class.") ∧
      (upgradeElementInternal stReg 0 (some "Nope")).1.dom = stReg.dom ∧
      (upgradeElementInternal stReg 0 (some "Nope")).1.createdComponents_
        = stReg.createdComponents_) :=
  ⟨by decide, by decide, by decide, by decide, by decide,
    C6_unregistered_type_fatal stReg 0 "Nope" (by decide) (by decide) (by decide)
      (by decide) (by decide)⟩

/-- C7: registering a component whose factory prototype already declares the
reserved internal back-reference field `mdlComponentConfigInternal_` throws
the fatal collision error, and the whole state — in particular the descriptor
collection — is unchanged (the faulty descriptor neither appends nor
replaces). -/
theorem C7_reserved_field_collision (st : Registry)
    (config : ComponentConfigPublic)
    (hproto : config.protoHasConfigProperty = true) :
    registerInternal st config
      = (st, some ("MDL component classes must not have " ++
          componentConfigProperty_ ++ " defined as a property.")) ∧
    (registerInternal st config).1.registeredComponents_
      = st.registeredComponents_ := by
  have h : registerInternal st config
      = (st, some ("MDL component classes must not have " ++
          componentConfigProperty_ ++ " defined as a property.")) := by
    unfold registerInternal
    rw [if_pos hproto]
  rw [h]
  exact ⟨rfl, rfl⟩

/-- Witness for C7: registering the colliding input `cfgBad` in the example
state throws and changes nothing. -/
theorem C7_reserved_field_collision_witness :
    cfgBad.protoHasConfigProperty = true ∧
    (registerInternal stReg cfgBad
        = (stReg, some ("MDL component classes must not have " ++
            componentConfigProperty_ ++ " defined as a property.")) ∧
      (registerInternal stReg cfgBad).1.registeredComponents_
        = stReg.registeredComponents_) :=
  ⟨by decide, C7_reserved_field_collision stReg cfgBad (by decide)⟩

/-- C9: `upgradeElementsInternal` never throws, and its visit order — the
sequence of elements on which the pre-upgrade `mdl-componentupgrading`
notification is dispatched — is exactly the pre-order traversal
(`preorderGo`) of the normalised input restricted to `HTMLElement` entries:
each proper element entry is upgraded (with no explicit type) before any of
its children, children are visited recursively in document order before the
remaining entries, and non-`HTMLElement` entries are skipped without error. -/
theorem C9_bulk_upgrade_preorder (fuel : Nat) (st : Registry)
    (elements : ElementsArg) :
    (upgradeElementsInternal fuel st elements).2 = none ∧
    upgradingTargets (upgradeElementsInternal fuel st elements).1
      = upgradingTargets st ++
        preorderGo st fuel (normalizeElementsArg st elements) :=
  ⟨(upgradeElementsGo_spec fuel st (normalizeElementsArg st elements)).1,
   (upgradeElementsGo_spec fuel st (normalizeElementsArg st elements)).2.2.2⟩

/-- C3 (counterexample): in end-to-end scenario A — register `"Widget"` with
marker class `"w-js"`, take the document element `0` carrying class `"w-js"`
and no `data-upgraded` attribute, run the bulk upgrade (`upgradeElements` on
the element; `upgradeAllRegistered` agrees) — the resulting `data-upgraded`
attribute is the string `",Widget"`, not `"Widget"`: the comma-join of the
default list `[""]` with `"Widget"` pushed carries a leading comma. -/
theorem C3_scenarioA_attribute_counterexample :
    ((upgradeElementsInternal 4 stReg (ElementsArg.single 0)).1.dom 0).dataUpgraded
      = some ",Widget" ∧
    ¬ ((upgradeElementsInternal 4 stReg (ElementsArg.single 0)).1.dom 0).dataUpgraded
      = some "Widget" ∧
    ((upgradeAllRegisteredInternal stReg).1.dom 0).dataUpgraded = some ",Widget" ∧
    ¬ ((upgradeAllRegisteredInternal stReg).1.dom 0).dataUpgraded
      = some "Widget" := by
  decide

/-- C3 (amended): scenario A with the attribute value corrected to
`",Widget"`.  After registering `"Widget"` (marker class `"w-js"`, no
callbacks) and running the bulk upgrade over the fresh element `0`, the
element's `data-upgraded` attribute equals `",Widget"` (the comma-joined
list whose sole type entry is `"Widget"`, after the empty-string sentinel
that an absent attribute splits to), exactly one live instance exists and
its owning element is that node, and no error is thrown; the
`upgradeAllRegistered` entry point produces the same attribute and instance. -/
theorem C3_scenarioA_amended :
    ((upgradeElementsInternal 4 stReg (ElementsArg.single 0)).1.dom 0).dataUpgraded
      = some ",Widget" ∧
    (upgradeElementsInternal 4 stReg (ElementsArg.single 0)).1.createdComponents_
      = [{ id := 0, element_ := 0, configField := some (newConfigOf cfgWidget) }] ∧
    (upgradeElementsInternal 4 stReg (ElementsArg.single 0)).2 = none ∧
    ((upgradeAllRegisteredInternal stReg).1.dom 0).dataUpgraded = some ",Widget" ∧
    (upgradeAllRegisteredInternal stReg).1.createdComponents_
      = [{ id := 0, element_ := 0, configField := some (newConfigOf cfgWidget) }] := by
  decide

/-- C8: calling `upgradeDom` with no arguments is equivalent to calling
`upgradeAllRegistered`: on every reachable state (where registered type
names are unique, as `register` guarantees) both iterate the descriptors in
registration order and run the same DOM-wide pass over the elements matching
each descriptor's marker class, producing identical final states — registry,
DOM attributes, instance collection, events, everything. -/
theorem C8_upgradeDom_eq_upgradeAllRegistered (st : Registry)
    (hreach : Reachable st) :
    upgradeDomInternal st none none = upgradeAllRegisteredInternal st := by
  have hInv := reachable_inv hreach
  show upgradeDomLoop st st.registeredComponents_
    = upgradeAllLoop st st.registeredComponents_
  apply upgradeDomLoop_eq_upgradeAllLoop
  intro c hc
  exact findRegisteredClass_self_of_nodup hInv.nodupNames hc

/-- Witness for C8: the two entry points coincide on the example state with
one registered component and two document nodes. -/
theorem C8_upgradeDom_eq_upgradeAllRegistered_witness :
    upgradeDomInternal stReg none none = upgradeAllRegisteredInternal stReg :=
  C8_upgradeDom_eq_upgradeAllRegistered stReg reachable_stReg

/-- C10: in every state reachable through the public registry operations,
every component in the live-instance collection has its reserved
back-reference field assigned to a descriptor record, and its owning
element's `data-upgraded` attribute is present (not absent); consequently
`deconstructComponentInternal` never reads an absent attribute — its
`null.split` `TypeError` path is unreachable and tearing the instance down
reports no error. -/
theorem C10_live_instances_wellformed (st : Registry) (hreach : Reachable st) :
    ∀ c ∈ st.createdComponents_,
      (∃ cfg, c.configField = some cfg) ∧
      ((st.dom c.element_).dataUpgraded).isSome ∧
      (deconstructComponentInternal st c).2 = none := by
  intro c hc
  have hInv := reachable_inv hreach
  obtain ⟨cfg, hcfg, _, _⟩ := hInv.compsOk c hc
  exact ⟨⟨cfg, hcfg⟩, comp_attr_isSome hInv hc, deconstruct_err_none hInv hc⟩

/-- Witness for C10: in the example state with one upgraded element, the one
live instance has its back-reference field set, its element's attribute
present, and tears down without error. -/
theorem C10_live_instances_wellformed_witness :
    compWidget ∈ stUp.createdComponents_ ∧
    ((∃ cfg, compWidget.configField = some cfg) ∧
      ((stUp.dom compWidget.element_).dataUpgraded).isSome ∧
      (deconstructComponentInternal stUp compWidget).2 = none) :=
  ⟨by decide,
    C10_live_instances_wellformed stUp reachable_stUp compWidget (by decide)⟩

/-- C1: on every state reachable through the public operations, registered
type names are unique (at most one descriptor per `className`); and
registering a second descriptor under an already-registered type name
replaces the existing descriptor at its original position in the ordered
collection (`List.set` at the found index — not an append: the length is
unchanged), where the replacement record starts with an empty callback list
(the old descriptor's callbacks are discarded, not merged). -/
theorem C1_typeName_unique_replace_in_place (st : Registry)
    (hreach : Reachable st) :
    (st.registeredComponents_.map ComponentConfig.className).Nodup ∧
    ∀ (config : ComponentConfigPublic) (i : Nat),
      config.protoHasConfigProperty = false →
      st.registeredComponents_.findIdx?
        (fun c => decide (c.className = config.classAsString)) = some i →
      (registerInternal st config).1.registeredComponents_
        = st.registeredComponents_.set i (newConfigOf config) ∧
      (registerInternal st config).1.registeredComponents_.length
        = st.registeredComponents_.length ∧
      (newConfigOf config).callbacks = [] := by
  refine ⟨(reachable_inv hreach).nodupNames, ?_⟩
  intro config i hproto hidx
  have hrep := @findRegisteredClass_replace_some config.classAsString
    (newConfigOf config) st.registeredComponents_ i hidx
  have hreg : (registerInternal st config).1.registeredComponents_
      = st.registeredComponents_.set i (newConfigOf config) := by
    unfold registerInternal
    rw [if_neg (by simp [hproto])]
    simp only [hrep]
  exact ⟨hreg, by rw [hreg, List.length_set], rfl⟩

/-- Witness for C1: re-registering `"Widget"` (as `cfgWidget2`) in the
example state replaces the descriptor at position `0` with a fresh record
carrying no callbacks. -/
theorem C1_typeName_unique_replace_in_place_witness :
    (stReg.registeredComponents_.map ComponentConfig.className).Nodup ∧
    cfgWidget2.protoHasConfigProperty = false ∧
    stReg.registeredComponents_.findIdx?
      (fun c => decide (c.className = cfgWidget2.classAsString)) = some 0 ∧
    ((registerInternal stReg cfgWidget2).1.registeredComponents_
        = stReg.registeredComponents_.set 0 (newConfigOf cfgWidget2) ∧
      (registerInternal stReg cfgWidget2).1.registeredComponents_.length
        = stReg.registeredComponents_.length ∧
      (newConfigOf cfgWidget2).callbacks = []) :=
  ⟨(C1_typeName_unique_replace_in_place stReg reachable_stReg).1,
   by decide, by decide,
   (C1_typeName_unique_replace_in_place stReg reachable_stReg).2 cfgWidget2 0
     (by decide) (by decide)⟩

/-- C2: on a reachable state, upgrading an element twice in a row for the
same registered type name `T` (with no cancelling listener) succeeds without
error and results in exactly one occurrence of `T` in the element's
upgraded-type list and exactly one live instance for that element-and-type
pair; the second call is a no-op on the attribute store, the instance
collection and the callback log (the candidate set excludes a type the
element is already marked upgraded for). -/
theorem C2_double_upgrade_idempotent (st : Registry) (element : Nat)
    (T : String) (cfg : ComponentConfig) (hreach : Reachable st)
    (hk : (st.dom element).kind.isElement)
    (hp : st.preventUpgrade element = false)
    (hT : T ≠ "")
    (hfind : (findRegisteredClass_ T none st.registeredComponents_).1 = some cfg)
    (hup : ¬ isElementUpgraded_ (st.dom element) T) :
    (upgradeElementInternal st element (some T)).2 = none ∧
    (upgradeElementInternal (upgradeElementInternal st element (some T)).1
        element (some T)).2 = none ∧
    (getUpgradedListOfElement_
        ((upgradeElementInternal (upgradeElementInternal st element (some T)).1
          element (some T)).1.dom element)).count T = 1 ∧
    ((upgradeElementInternal (upgradeElementInternal st element (some T)).1
        element (some T)).1.createdComponents_.filter
      (fun c => c.element_ == element && (typeOfComponent c == T))).length = 1 ∧
    (upgradeElementInternal (upgradeElementInternal st element (some T)).1
        element (some T)).1.createdComponents_
      = (upgradeElementInternal st element (some T)).1.createdComponents_ ∧
    (upgradeElementInternal (upgradeElementInternal st element (some T)).1
        element (some T)).1.dom
      = (upgradeElementInternal st element (some T)).1.dom ∧
    (upgradeElementInternal (upgradeElementInternal st element (some T)).1
        element (some T)).1.callbackLog
      = (upgradeElementInternal st element (some T)).1.callbackLog := by
  have hInv := reachable_inv hreach
  obtain ⟨hcreg, hname⟩ := findRegisteredClass_fst_some hfind
  have h1 := upgradeElementInternal_success hk hp hT hfind hup
  obtain ⟨s1, s2, s3, s4, s5, s6, s7, s8, s9, s10⟩ :=
    upgradeOneClass_spec
      ({ st with events := st.events ++
        [({ eventType := "mdl-componentupgrading", bubbles := true,
            cancelable := true, target := element } : Ev)] } : Registry)
      element cfg
      (getUpgradedListOfElement_ (st.dom element) ++ [cfg.className])
  have hul : getUpgradedListOfElement_ (st.dom element)
      = "" :: typesOn st element := Inv.getList hInv element
  have hTcf : ',' ∉ T.data := by
    rw [← hname]
    exact hInv.regCommaFree cfg hcreg
  have hTnotin : T ∉ ("" :: typesOn st element) := by
    rw [← hul]
    exact hup
  have hattr1 : (((upgradeElementInternal st element (some T)).1).dom
      element).dataUpgraded
      = some (jsJoinComma (getUpgradedListOfElement_ (st.dom element)
          ++ [cfg.className])) := by
    rw [h1]
    exact s6
  have hlist1 : getUpgradedListOfElement_
      (((upgradeElementInternal st element (some T)).1).dom element)
      = ("" :: typesOn st element) ++ [T] := by
    rw [getUpgradedList_eq_of_some hattr1]
    rw [hul, hname]
    rw [jsSplitComma_jsJoinComma (by simp) (by
      intro x hx
      rcases List.mem_append.mp hx with hx1 | hx2
      · rcases List.mem_cons.mp hx1 with rfl | hx1'
        · simp
        · exact typesOn_commaFree hInv x hx1'
      · simp only [List.mem_singleton] at hx2
        rw [hx2]
        exact hTcf)]
  have hup2 : isElementUpgraded_
      (((upgradeElementInternal st element (some T)).1).dom element) T := by
    unfold isElementUpgraded_
    rw [hlist1]
    exact List.mem_append.mpr (Or.inr (List.mem_singleton.mpr rfl))
  have hk2 : (((upgradeElementInternal st element (some T)).1).dom element).kind.isElement := by
    rw [h1]
    show ((upgradeOneClass _ element cfg _).dom element).kind.isElement
    rw [(s8 element).1]
    exact hk
  have hp2 : ((upgradeElementInternal st element (some T)).1).preventUpgrade element
      = false := by
    rw [h1]
    show (upgradeOneClass _ element cfg _).preventUpgrade element = false
    rw [s3]
    exact hp
  have h2 := upgradeElementInternal_already hk2 hp2 hT hup2
  have hcreated1 : ((upgradeElementInternal st element (some T)).1).createdComponents_
      = st.createdComponents_ ++
        [(⟨st.nextComponentId, element, some cfg⟩ : Component)] := by
    rw [h1]
    exact s4
  refine ⟨by rw [h1], by rw [h2], ?_, ?_, by rw [h2], by rw [h2], by rw [h2]⟩
  · rw [h2]
    show (getUpgradedListOfElement_
      (((upgradeElementInternal st element (some T)).1).dom element)).count T = 1
    rw [hlist1, List.count_append]
    rw [List.count_eq_zero.mpr (by simpa using hTnotin)]
    simp
  · rw [h2]
    show (((upgradeElementInternal st element (some T)).1).createdComponents_.filter
      (fun c => c.element_ == element && (typeOfComponent c == T))).length = 1
    rw [hcreated1, List.filter_append]
    have hold : st.createdComponents_.filter
        (fun c => c.element_ == element && (typeOfComponent c == T)) = [] := by
      rw [List.filter_eq_nil_iff]
      intro c hc hcon
      simp only [Bool.and_eq_true, beq_iff_eq] at hcon
      apply hTnotin
      apply List.mem_cons_of_mem
      unfold typesOn
      exact List.mem_map.mpr ⟨c,
        List.mem_filter.mpr ⟨hc, by simp [hcon.1]⟩, hcon.2⟩
    rw [hold]
    have hnew : ((⟨st.nextComponentId, element, some cfg⟩ : Component).element_
          == element
          && (typeOfComponent (⟨st.nextComponentId, element, some cfg⟩ : Component)
            == T)) = true := by
      simp [typeOfComponent, hname]
    rw [List.filter_singleton, hnew]
    rfl

/-- Witness for C2: in the example state with `"Widget"` registered,
upgrading element `0` for `"Widget"` twice succeeds, leaves one occurrence
of the type and one live instance, and the second call changes nothing. -/
theorem C2_double_upgrade_idempotent_witness :
    (stReg.dom 0).kind.isElement ∧
    stReg.preventUpgrade 0 = false ∧
    "Widget" ≠ "" ∧
    (findRegisteredClass_ "Widget" none stReg.registeredComponents_).1
      = some (newConfigOf cfgWidget) ∧
    ¬ isElementUpgraded_ (stReg.dom 0) "Widget" ∧
    ((upgradeElementInternal stReg 0 (some "Widget")).2 = none ∧
      (upgradeElementInternal (upgradeElementInternal stReg 0 (some "Widget")).1
          0 (some "Widget")).2 = none ∧
      (getUpgradedListOfElement_
          ((upgradeElementInternal
            (upgradeElementInternal stReg 0 (some "Widget")).1
            0 (some "Widget")).1.dom 0)).count "Widget" = 1 ∧
      ((upgradeElementInternal (upgradeElementInternal stReg 0 (some "Widget")).1
          0 (some "Widget")).1.createdComponents_.filter
        (fun c => c.element_ == 0 && (typeOfComponent c == "Widget"))).length = 1 ∧
      (upgradeElementInternal (upgradeElementInternal stReg 0 (some "Widget")).1
          0 (some "Widget")).1.createdComponents_
        = (upgradeElementInternal stReg 0 (some "Widget")).1.createdComponents_ ∧
      (upgradeElementInternal (upgradeElementInternal stReg 0 (some "Widget")).1
          0 (some "Widget")).1.dom
        = (upgradeElementInternal stReg 0 (some "Widget")).1.dom ∧
      (upgradeElementInternal (upgradeElementInternal stReg 0 (some "Widget")).1
          0 (some "Widget")).1.callbackLog
        = (upgradeElementInternal stReg 0 (some "Widget")).1.callbackLog) :=
  ⟨by decide, by decide, by decide, by decide, by decide,
   C2_double_upgrade_idempotent stReg 0 "Widget" (newConfigOf cfgWidget)
     reachable_stReg (by decide) (by decide) (by decide) (by decide)
     (by decide)⟩

/-- C4: on a reachable state, `downgradeElements` with a valid argument
(an array/`NodeList`, or a single value that is a `Node`) throws no error;
for every denoted node, every live instance owned by that exact node is
removed from the live-instance collection, its type name no longer appears
in the node's upgraded-type list, and the attribute is present (written
back, not removed); nodes without matching instances leave the state
untouched; and repeating the whole call is a no-op without error. -/
theorem C4_downgrade_teardown (st : Registry) (nodes : NodesArg)
    (hreach : Reachable st) (hvalid : validNodesArg st nodes) :
    (downgradeNodesInternal st nodes).2 = none ∧
    (∀ node ∈ nodesOf nodes, ∀ c ∈ st.createdComponents_, c.element_ = node →
      c ∉ (downgradeNodesInternal st nodes).1.createdComponents_ ∧
      typeOfComponent c ∉ getUpgradedListOfElement_
        ((downgradeNodesInternal st nodes).1.dom node) ∧
      (((downgradeNodesInternal st nodes).1.dom node).dataUpgraded).isSome) ∧
    ((∀ node ∈ nodesOf nodes, ∀ c ∈ st.createdComponents_, c.element_ ≠ node) →
      (downgradeNodesInternal st nodes).1 = st) ∧
    downgradeNodesInternal (downgradeNodesInternal st nodes).1 nodes
      = ((downgradeNodesInternal st nodes).1, none) := by
  have hInv := reachable_inv hreach
  cases nodes with
  | invalid => exact hvalid.elim
  | single n =>
    have hn : (st.dom n).kind.isNode := hvalid
    obtain ⟨s1, s2, s3, s4, s5, s6, s7, s8⟩ := downgradeNode_spec hInv n
    have hred : downgradeNodesInternal st (.single n) = downgradeNode st n := by
      show (if (st.dom n).kind.isNode then downgradeNode st n else _) = _
      rw [if_pos hn]
    rw [hred]
    refine ⟨s1, ?_, ?_, ?_⟩
    · intro node hnode c hc hce
      have hnode' : node = n := by simpa [nodesOf] using hnode
      subst hnode'
      have hfil : st.createdComponents_.filter
          (fun x => x.element_ == node) ≠ [] := by
        intro hcon
        have hmem : c ∈ st.createdComponents_.filter
            (fun x => x.element_ == node) :=
          List.mem_filter.mpr ⟨hc, by simp [hce]⟩
        rw [hcon] at hmem
        cases hmem
      have hattr := s5 hfil
      refine ⟨?_, ?_, ?_⟩
      · intro hmem
        rw [s3] at hmem
        have := List.of_mem_filter hmem
        simp [hce] at this
      · rw [getUpgradedList_eq_of_some hattr, jsSplitComma_empty]
        obtain ⟨cfg, hcfg, _, hne⟩ := hInv.compsOk c hc
        simp [typeOfComponent, hcfg]
        exact hne
      · rw [hattr]
        rfl
    · intro hnone
      apply s6
      rw [List.filter_eq_nil_iff]
      intro c hc
      have := hnone n (by simp [nodesOf]) c hc
      simp [this]
    · have hkind : ((downgradeNode st n).1.dom n).kind.isNode := by
        rw [s8 n]
        exact hn
      have hred2 : downgradeNodesInternal (downgradeNode st n).1 (.single n)
          = downgradeNode (downgradeNode st n).1 n := by
        show (if ((downgradeNode st n).1.dom n).kind.isNode then _ else _) = _
        rw [if_pos hkind]
      rw [hred2]
      apply downgradeNode_noop s2
      rw [List.filter_eq_nil_iff]
      intro a ha
      rw [s3] at ha
      have h2 := List.of_mem_filter ha
      simpa using h2
  | many ns =>
    obtain ⟨r1, r2, r3, r4, r5, r6, r7, r8⟩ := downgradeNodesLoop_spec ns st hInv
    have hred : downgradeNodesInternal st (.many ns)
        = downgradeNodesLoop st ns := rfl
    rw [hred]
    refine ⟨r1, ?_, ?_, ?_⟩
    · intro node hnode c hc hce
      have hnode' : node ∈ ns := hnode
      have hfil : st.createdComponents_.filter
          (fun x => x.element_ == node) ≠ [] := by
        intro hcon
        have hmem : c ∈ st.createdComponents_.filter
            (fun x => x.element_ == node) :=
          List.mem_filter.mpr ⟨hc, by simp [hce]⟩
        rw [hcon] at hmem
        cases hmem
      have hattr := r5 node hnode' hfil
      refine ⟨?_, ?_, ?_⟩
      · intro hmem
        exact (r4 node hnode' c hmem) hce
      · rw [getUpgradedList_eq_of_some hattr, jsSplitComma_empty]
        obtain ⟨cfg, hcfg, _, hne⟩ := hInv.compsOk c hc
        simp [typeOfComponent, hcfg]
        exact hne
      · rw [hattr]
        rfl
    · intro hnone
      apply r7
      intro m hm
      rw [List.filter_eq_nil_iff]
      intro c hc
      have := hnone m hm c hc
      simp [this]
    · obtain ⟨q1, _, _, _, _, _, q7, _⟩ :=
        downgradeNodesLoop_spec ns (downgradeNodesLoop st ns).1 r2
      have hid := q7 (fun m hm => List.filter_eq_nil_iff.mpr
        (fun c hc => by simpa using r4 m hm c hc))
      have hred2 : downgradeNodesInternal (downgradeNodesLoop st ns).1 (.many ns)
          = downgradeNodesLoop (downgradeNodesLoop st ns).1 ns := rfl
      rw [hred2]
      exact Prod.ext hid q1

/-- Witness for C4: downgrading element `0` of the example upgraded state
removes its `"Widget"` instance, clears the type from the attribute while
keeping the attribute present, and a second downgrade of the same node is a
no-op without error. -/
theorem C4_downgrade_teardown_witness :
    validNodesArg stUp (NodesArg.single 0) ∧
    0 ∈ nodesOf (NodesArg.single 0) ∧
    compWidget ∈ stUp.createdComponents_ ∧
    compWidget.element_ = 0 ∧
    ((downgradeNodesInternal stUp (NodesArg.single 0)).2 = none ∧
      (compWidget ∉ (downgradeNodesInternal stUp
          (NodesArg.single 0)).1.createdComponents_ ∧
        typeOfComponent compWidget ∉ getUpgradedListOfElement_
          ((downgradeNodesInternal stUp (NodesArg.single 0)).1.dom 0) ∧
        (((downgradeNodesInternal stUp
          (NodesArg.single 0)).1.dom 0).dataUpgraded).isSome) ∧
      downgradeNodesInternal (downgradeNodesInternal stUp
          (NodesArg.single 0)).1 (NodesArg.single 0)
        = ((downgradeNodesInternal stUp (NodesArg.single 0)).1, none)) := by
  have h := C4_downgrade_teardown stUp (NodesArg.single 0) reachable_stUp
    (by decide)
  exact ⟨by decide, by decide, by decide, by decide,
    h.1,
    h.2.1 0 (by decide) compWidget (by decide) (by decide),
    h.2.2.2⟩

end MDL
